import Mathlib

set_option maxHeartbeats 1000000

/-! Shallow embedding of the CSV cleaning pipeline of this repository
    (src/utils/csv.ts together with the configuration module csvConfig.ts).
    Rows are lists of strings.  JS host primitives that the pipeline calls
    (RegExp compilation and matching, Date.parse, local-time construction by
    new Date(y, m, d)) enter through an explicit environment record `JsEnv`,
    so the pipeline itself is a pure executable function. -/

/-- Environment of JS host primitives used by the pipeline.  A regex pattern
whose compilation throws is modelled by `regexCompile` returning `none`;
`Date.parse` yielding NaN, and a non-finite `new Date(...).getTime()`, are
modelled by `none`. -/
structure JsEnv where
  regexCompile : String → String → Option (String → Bool)
  dateParse : String → Option Int
  mkDateMs : Nat → Nat → Nat → Option Int

/-- Dropping whitespace characters from both ends of a character list. -/
def trimChars (l : List Char) : List Char :=
  ((l.dropWhile Char.isWhitespace).reverse.dropWhile Char.isWhitespace).reverse

/-- String.prototype.trim, modelled as dropping whitespace characters from
both ends of the character list (kernel-reducible, unlike String.trim). -/
def trimCell (v : String) : String :=
  String.mk (trimChars v.data)

/-- csv.ts rowIsEmpty: every cell trims to the empty string. -/
def rowIsEmpty (row : List String) : Bool := row.all (fun c => trimCell c == "")

/-- csv.ts padRow: truncate to len if at least len cells, else pad with "". -/
def padRow (row : List String) (len : Nat) : List String :=
  if len ≤ row.length then row.take len
  else row ++ List.replicate (len - row.length) ""

/-- csv.ts sameRow: same length and cellwise trim-equality. -/
def sameRow (a b : List String) : Bool :=
  a.length == b.length &&
    (List.zip a b).all (fun p => trimCell p.1 == trimCell p.2)

/-- JS String.prototype.includes: pat occurs as a contiguous substring of s. -/
def strContains (s pat : String) : Bool :=
  (List.range (s.data.length + 1)).any
    (fun i => pat.data.isPrefixOf (s.data.drop i))

/-- csv.ts hitFooterKeywords: some cell with non-empty trim contains a keyword. -/
def hitFooterKeywords (row : List String) (keywords : List String) : Bool :=
  row.any (fun cell =>
    let s := trimCell cell
    !(s == "") && keywords.any (fun kw => strContains s kw))

/-- csv.ts normalizeOutputRow: trim every cell. -/
def normalizeOutputRow (row : List String) : List String := row.map trimCell

def DEFAULT_FOOTER_KEYWORDS : List String :=
  ["合计", "总计", "汇总", "说明", "注释", "数据来源", "更新时间"]

inductive EventTimeFilterMode where
  | excludeMatch
  | includeMatch
  deriving DecidableEq, Repr

/-- csv.ts EventTimeFilter.  startDate and endDate are optional strings; the
orchestrator additionally treats the empty string as absent (JS truthiness). -/
structure EventTimeFilter where
  enabled : Bool
  startDate : Option String
  endDate : Option String
  mode : EventTimeFilterMode

/-- csvConfig.ts CsvRemoveRule column field: name, 1-based index, or wildcard. -/
inductive ColumnSpec where
  | star
  | num (n : Int)
  | name (s : String)
  deriving DecidableEq, Repr

inductive MatchType where
  | regex
  | keywords
  deriving DecidableEq, Repr

/-- csvConfig.ts CsvRemoveRule. -/
structure CsvRemoveRule where
  name : String
  enabled : Option Bool
  column : ColumnSpec
  matchType : MatchType
  pattern : Option String
  flags : Option String
  keywords : Option (List String)
  contains : Option Bool
  caseInsensitive : Option Bool
  deriving DecidableEq, Repr

/-- csvConfig.ts CsvConfig (the version field, always 1, is omitted). -/
structure CsvConfig where
  eventTimeColumnNames : Option (List String)
  removeEmptyRows : Option Bool
  removeDuplicateHeaderRows : Option Bool
  removeFooterKeywordRows : Option Bool
  footerKeywords : Option (List String)
  removeRules : Option (List CsvRemoveRule)

structure CleanCsvOptions where
  eventTimeFilter : Option EventTimeFilter
  csvConfig : Option CsvConfig

structure CsvCleanResult where
  headerIndex : Int
  originalRowCount : Nat
  cleanedRowCount : Nat
  removedRowCount : Nat
  rows : List (List String)
  removedRows : List (List String)
  removedByTimeRows : List (List String)
  removedByCustomRows : List (List String)

/-- csv.ts findEventTimeColIndex: candidate set is the trimmed non-empty
configured names, defaulting to 事件时间 when that set is empty; returns the
first header cell whose trim is in the set (source returns -1, here none). -/
def findEventTimeColIndex (headerRow : List String) (names : List String) :
    Option Nat :=
  let set0 := (names.map trimCell).filter (fun s => !(s == ""))
  let set1 := if set0.isEmpty then ["事件时间"] else set0
  headerRow.findIdx? (fun c => set1.contains (trimCell c))

/-- Digits of a decimal numeral to a Nat. -/
def digitsToNat (l : List Char) : Nat :=
  l.foldl (fun n c => n * 10 + (c.toNat - '0'.toNat)) 0

/-- The regex ^(\d{4})-(\d{2})-(\d{2})$ of csv.ts dateToStartMs. -/
def parseYmd (s : String) : Option (Nat × Nat × Nat) :=
  match s.data with
  | [a, b, c, d, h1, e, f, h2, g, k] =>
    if a.isDigit && b.isDigit && c.isDigit && d.isDigit && h1 == '-' &&
        e.isDigit && f.isDigit && h2 == '-' && g.isDigit && k.isDigit then
      some (digitsToNat [a, b, c, d], digitsToNat [e, f], digitsToNat [g, k])
    else none
  | _ => none

/-- csv.ts dateToStartMs: parse yyyy-mm-dd, then new Date(y, mo-1, d).getTime()
(the host construction is env.mkDateMs, applied to the parsed numerals). -/
def dateToStartMs (env : JsEnv) (dateStr : String) : Option Int :=
  match parseYmd dateStr with
  | none => none
  | some (y, mo, d) => env.mkDateMs y mo d

/-- csv.ts dateToEndMs: start of the day plus 24*60*60*1000 - 1. -/
def dateToEndMs (env : JsEnv) (dateStr : String) : Option Int :=
  match dateToStartMs env dateStr with
  | none => none
  | some start => some (start + (24 * 60 * 60 * 1000 - 1))

/-- JS s.replace(' ', 'T'): replace only the first space. -/
def replaceFirstSpace : List Char → List Char
  | [] => []
  | c :: rest => if c == ' ' then 'T' :: rest else c :: replaceFirstSpace rest

/-- csv.ts parseEventTimeMs: trim, empty means unparseable, a space separator
is turned into T when no T is present, then Date.parse. -/
def parseEventTimeMs (env : JsEnv) (cell : String) : Option Int :=
  let s := trimCell cell
  if s == "" then none
  else
    let normalized :=
      if s.data.contains ' ' && !(s.data.contains 'T') then
        String.mk (replaceFirstSpace s.data)
      else s
    env.dateParse normalized

/-- csv.ts matchTimeRange. -/
def matchTimeRange (eventTimeMs startMs endMs : Option Int) : Bool :=
  match eventTimeMs with
  | none => false
  | some t =>
    (match startMs with
     | some s => !(t < s)
     | none => true) &&
    (match endMs with
     | some e => !(e < t)
     | none => true)

structure CompiledRemoveRule where
  name : String
  test : List String → Bool

inductive ResolvedCols where
  | star
  | idxs (l : List Nat)
  deriving DecidableEq, Repr

/-- The containment fallback of csv.ts resolveColumnIndices: indices of header
cells with non-empty trim that contain the target or are contained in it. -/
def containHits (headerRow : List String) (target : String) : List Nat :=
  ((headerRow.enum).filter (fun p =>
    let h := trimCell p.2
    !(h == "") && (strContains h target || strContains target h))).map Prod.fst

/-- csv.ts resolveColumnIndices. -/
def resolveColumnIndices (headerRow : List String) (column : ColumnSpec) :
    Option ResolvedCols :=
  match column with
  | .star => some .star
  | .num n => if 0 ≤ n - 1 then some (.idxs [(n - 1).toNat]) else none
  | .name c =>
    let target := trimCell c
    if target == "" then none
    else
      match headerRow.findIdx? (fun h => trimCell h == target) with
      | some exactIdx => some (.idxs [exactIdx])
      | none =>
        let hits := containHits headerRow target
        if hits.length == 1 then some (.idxs hits) else none

/-- The effective keyword list of a keyword rule: keep strings (in the model
keywords are already strings), trim each, drop empties. -/
def effectiveRuleKeywords (rule : CsvRemoveRule) : List String :=
  ((rule.keywords.getD []).map trimCell).filter (fun s => !(s == ""))

/-- The effective regex flags: a case-insensitive rule folds i into the flags
when not already present. -/
def effectiveRegexFlags (rule : CsvRemoveRule) : String :=
  let flags := rule.flags.getD ""
  if rule.caseInsensitive.getD false && !(flags.data.contains 'i') then
    flags ++ "i"
  else flags

/-- Compilation of a single rule (the loop body of csv.ts compileRemoveRules);
none models every continue branch: disabled rule, unresolvable column, empty
or uncompilable regex pattern, empty effective keyword list. -/
def compileOne (env : JsEnv) (headerRow : List String) (rule : CsvRemoveRule) :
    Option CompiledRemoveRule :=
  if rule.enabled = some false then none
  else
    match resolveColumnIndices headerRow rule.column with
    | none => none
    | some indices =>
      let contains := rule.contains.getD true
      let ci := rule.caseInsensitive.getD false
      match rule.matchType with
      | .regex =>
        let pattern := rule.pattern.getD ""
        if pattern == "" then none
        else
          match env.regexCompile pattern (effectiveRegexFlags rule) with
          | none => none
          | some re =>
            some { name := rule.name
                   test := fun row =>
                     match indices with
                     | .star => row.any (fun c => re c)
                     | .idxs l => l.any (fun i => re (row.getD i "")) }
      | .keywords =>
        let keywords := effectiveRuleKeywords rule
        if keywords.isEmpty then none
        else
          let norm := fun (s : String) =>
            if ci then String.mk (s.data.map Char.toLower) else s
          let kwNorm := keywords.map norm
          let matchCell := fun (cell : String) =>
            let s := norm (trimCell cell)
            if s == "" then false
            else if contains then kwNorm.any (fun k => strContains s k)
            else kwNorm.any (fun k => s == k)
          some { name := rule.name
                 test := fun row =>
                   match indices with
                   | .star => row.any matchCell
                   | .idxs l => l.any (fun i => matchCell (row.getD i "")) }

/-- csv.ts compileRemoveRules: each rule compiles to a predicate or is
skipped; absent or empty rule list compiles to nothing. -/
def compileRemoveRules (env : JsEnv) (headerRow : List String)
    (rules : Option (List CsvRemoveRule)) : List CompiledRemoveRule :=
  match rules with
  | none => []
  | some rs => rs.filterMap (compileOne env headerRow)

/-- Structural-stage parameters shared by every iteration of the cleaning
loop of csv.ts cleanCsvRows. -/
structure StructParams where
  removeEmptyRows : Bool
  removeDuplicateHeaderRows : Bool
  removeFooterKeywordRows : Bool
  footerKeywords : List String
  headerIndex : Nat
  tableLen : Nat
  headerNorm : List String

/-- The structural cleaning loop of csv.ts cleanCsvRows, processing rows from
position i on; returns (cleanedBase, removedByRulesRows). -/
def structuralSplit (P : StructParams) :
    Nat → List (List String) → List (List String) × List (List String)
  | _, [] => ([], [])
  | i, row :: rest =>
    let r := structuralSplit P (i + 1) rest
    if P.removeEmptyRows && rowIsEmpty row then r
    else if i == P.headerIndex then
      (normalizeOutputRow (padRow row P.tableLen) :: r.1, r.2)
    else
      let rowPadded := padRow row P.tableLen
      if P.removeDuplicateHeaderRows && sameRow rowPadded P.headerNorm then
        (r.1, normalizeOutputRow rowPadded :: r.2)
      else if P.removeFooterKeywordRows &&
          hitFooterKeywords rowPadded P.footerKeywords then
        (r.1, normalizeOutputRow rowPadded :: r.2)
      else (normalizeOutputRow rowPadded :: r.1, r.2)

/-- The custom-rule loop of csv.ts cleanCsvRows: (kept, removedByCustomRows). -/
def customSplit (compiledRules : List CompiledRemoveRule) :
    List (List String) → List (List String) × List (List String)
  | [] => ([], [])
  | row :: rest =>
    let r := customSplit compiledRules rest
    if compiledRules.any (fun c => c.test row) then (r.1, row :: r.2)
    else (row :: r.1, r.2)

/-- The custom-rule stage of csv.ts cleanCsvRows with its guards: applied only
when at least one data row exists and the configured rule list is non-empty
and at least one rule compiled. -/
def customResult (env : JsEnv) (rules : Option (List CsvRemoveRule))
    (cleanedBase : List (List String)) :
    List (List String) × List (List String) :=
  if 1 < cleanedBase.length ∧ rules.getD [] ≠ [] then
    match cleanedBase with
    | [] => (cleanedBase, [])
    | headerRow :: data =>
      let compiledRules := compileRemoveRules env headerRow rules
      if compiledRules.isEmpty then (cleanedBase, [])
      else
        let kr := customSplit compiledRules data
        (headerRow :: kr.1, kr.2)
  else (cleanedBase, [])

/-- Start bound of csv.ts cleanCsvRows: tf.startDate ? dateToStartMs(...) :
null (JS truthiness also discards the empty string). -/
def startMsOf (env : JsEnv) (tf : EventTimeFilter) : Option Int :=
  match tf.startDate with
  | some s => if s == "" then none else dateToStartMs env s
  | none => none

/-- End bound of csv.ts cleanCsvRows. -/
def endMsOf (env : JsEnv) (tf : EventTimeFilter) : Option Int :=
  match tf.endDate with
  | some s => if s == "" then none else dateToEndMs env s
  | none => none

/-- The temporal loop of csv.ts cleanCsvRows: (keptData, removedByTimeRows). -/
def temporalSplit (env : JsEnv) (mode : EventTimeFilterMode)
    (startMs endMs : Option Int) (eventTimeIdx : Nat) :
    List (List String) → List (List String) × List (List String)
  | [] => ([], [])
  | row :: rest =>
    let r := temporalSplit env mode startMs endMs eventTimeIdx rest
    let tMs := parseEventTimeMs env (row.getD eventTimeIdx "")
    let hit := matchTimeRange tMs startMs endMs
    let shouldRemove :=
      match mode with
      | .excludeMatch => hit
      | .includeMatch => !hit
    if shouldRemove then (r.1, row :: r.2) else (row :: r.1, r.2)

/-- The temporal stage of csv.ts cleanCsvRows with its guards: applied only
when a filter is supplied, enabled, at least one data row remains and the
event-time column resolves. -/
def temporalResult (env : JsEnv) (otf : Option EventTimeFilter)
    (eventTimeNames : List String) (cleanedAfterCustom : List (List String)) :
    List (List String) × List (List String) :=
  match otf with
  | none => (cleanedAfterCustom, [])
  | some tf =>
    if tf.enabled = true ∧ 1 < cleanedAfterCustom.length then
      match cleanedAfterCustom with
      | [] => (cleanedAfterCustom, [])
      | headerRow :: data =>
        match findEventTimeColIndex headerRow eventTimeNames with
        | some eventTimeIdx =>
          let kr := temporalSplit env tf.mode (startMsOf env tf)
            (endMsOf env tf) eventTimeIdx data
          (headerRow :: kr.1, kr.2)
        | none => (cleanedAfterCustom, [])
    else (cleanedAfterCustom, [])

/-- Effective footer keywords: cfg?.footerKeywords?.length ? ... : defaults. -/
def cfgFooterKeywords (ocfg : Option CsvConfig) : List String :=
  match ocfg with
  | some cfg =>
    match cfg.footerKeywords with
    | some l => if l = [] then DEFAULT_FOOTER_KEYWORDS else l
    | none => DEFAULT_FOOTER_KEYWORDS
  | none => DEFAULT_FOOTER_KEYWORDS

def cfgRemoveEmptyRows (ocfg : Option CsvConfig) : Bool :=
  (ocfg.bind (fun c => c.removeEmptyRows)).getD true

def cfgRemoveDuplicateHeaderRows (ocfg : Option CsvConfig) : Bool :=
  (ocfg.bind (fun c => c.removeDuplicateHeaderRows)).getD true

def cfgRemoveFooterKeywordRows (ocfg : Option CsvConfig) : Bool :=
  (ocfg.bind (fun c => c.removeFooterKeywordRows)).getD true

/-- Effective event-time column names: non-empty configured list or the
default 事件时间. -/
def cfgEventTimeNames (ocfg : Option CsvConfig) : List String :=
  match ocfg with
  | some cfg =>
    match cfg.eventTimeColumnNames with
    | some l => if l = [] then ["事件时间"] else l
    | none => ["事件时间"]
  | none => ["事件时间"]

/-- csv.ts findHeaderIndex loop: first row that is not entirely blank. -/
def findHeaderIndex (rawRows : List (List String)) : Option Nat :=
  rawRows.findIdx? (fun r => !(rowIsEmpty r))

/-- maxLen of csv.ts cleanCsvRows. -/
def maxRowLen (rawRows : List (List String)) : Nat :=
  rawRows.foldl (fun m r => max m r.length) 0

/-- tableLen of csv.ts cleanCsvRows: max of the header length and maxLen. -/
def tableLenOf (rawRows : List (List String)) (headerIndex : Nat) : Nat :=
  max (rawRows.getD headerIndex []).length (maxRowLen rawRows)

def structParamsOf (opts : CleanCsvOptions) (rawRows : List (List String))
    (headerIndex : Nat) : StructParams :=
  { removeEmptyRows := cfgRemoveEmptyRows opts.csvConfig
    removeDuplicateHeaderRows := cfgRemoveDuplicateHeaderRows opts.csvConfig
    removeFooterKeywordRows := cfgRemoveFooterKeywordRows opts.csvConfig
    footerKeywords := cfgFooterKeywords opts.csvConfig
    headerIndex := headerIndex
    tableLen := tableLenOf rawRows headerIndex
    headerNorm := (padRow (rawRows.getD headerIndex [])
      (tableLenOf rawRows headerIndex)).map trimCell }

/-- csv.ts cleanCsvRows.  removedRowCount is Math.max(0, original - cleaned),
which over Nat is truncated subtraction. -/
def cleanCsvRows (env : JsEnv) (rawRows : List (List String))
    (options : CleanCsvOptions) : CsvCleanResult :=
  let originalRowCount := rawRows.length
  match findHeaderIndex rawRows with
  | none =>
    { headerIndex := -1
      originalRowCount := originalRowCount
      cleanedRowCount := 0
      removedRowCount := originalRowCount
      rows := []
      removedRows := []
      removedByTimeRows := []
      removedByCustomRows := [] }
  | some headerIndex =>
    let sp := structuralSplit (structParamsOf options rawRows headerIndex) 0 rawRows
    let cr := customResult env (options.csvConfig.bind (fun c => c.removeRules)) sp.1
    let tr := temporalResult env options.eventTimeFilter
      (cfgEventTimeNames options.csvConfig) cr.1
    { headerIndex := (headerIndex : Int)
      originalRowCount := originalRowCount
      cleanedRowCount := tr.1.length
      removedRowCount := originalRowCount - tr.1.length
      rows := tr.1
      removedRows := sp.2 ++ cr.2 ++ tr.2
      removedByTimeRows := tr.2
      removedByCustomRows := cr.2 }

/-- A header position qualifies for the containment fallback of column
resolution: it is in range, its cell has non-empty trim, and the trimmed cell
contains the target or is contained in it. -/
def nameQualifies (headerRow : List String) (target : String) (j : Nat) :
    Prop :=
  j < headerRow.length ∧ ¬(trimCell (headerRow.getD j "") = "") ∧
  (strContains (trimCell (headerRow.getD j "")) target = true ∨
   strContains target (trimCell (headerRow.getD j "")) = true)

/-- The structural-stage output of cleanCsvRows once the header index h is
found. -/
def spOf (rawRows : List (List String)) (opts : CleanCsvOptions) (h : Nat) :
    List (List String) × List (List String) :=
  structuralSplit (structParamsOf opts rawRows h) 0 rawRows

/-- The custom-rule-stage output of cleanCsvRows. -/
def crOf (env : JsEnv) (rawRows : List (List String)) (opts : CleanCsvOptions)
    (h : Nat) : List (List String) × List (List String) :=
  customResult env (opts.csvConfig.bind (fun c => c.removeRules))
    (spOf rawRows opts h).1

/-- The temporal-stage output of cleanCsvRows. -/
def trOf (env : JsEnv) (rawRows : List (List String)) (opts : CleanCsvOptions)
    (h : Nat) : List (List String) × List (List String) :=
  temporalResult env opts.eventTimeFilter (cfgEventTimeNames opts.csvConfig)
    (crOf env rawRows opts h).1

/-- A concrete environment with no regex and no date support, for witnesses. -/
def trivEnv : JsEnv :=
  { regexCompile := fun _ _ => none
    dateParse := fun _ => none
    mkDateMs := fun _ _ _ => none }

/-- The removal predicate of the temporal loop of csv.ts cleanCsvRows. -/
def temporalRemoves (env : JsEnv) (mode : EventTimeFilterMode)
    (startMs endMs : Option Int) (eventTimeIdx : Nat) (row : List String) :
    Bool :=
  match mode with
  | .excludeMatch =>
    matchTimeRange (parseEventTimeMs env (row.getD eventTimeIdx ""))
      startMs endMs
  | .includeMatch =>
    !(matchTimeRange (parseEventTimeMs env (row.getD eventTimeIdx ""))
      startMs endMs)

/-- Number of input rows that the pipeline drops because they are blank:
every row when no header exists, the blank rows when blank-row removal is
enabled, and none otherwise. -/
def blanksDroppedCount (rawRows : List (List String))
    (opts : CleanCsvOptions) : Nat :=
  match findHeaderIndex rawRows with
  | none => rawRows.length
  | some _ =>
    if cfgRemoveEmptyRows opts.csvConfig then
      (rawRows.filter rowIsEmpty).length
    else 0

/-! An index-tagged mirror of the pipeline.  Each row carries the position of
the raw input row it was produced from, so that occurrence statements (the
header row is never in a removal bucket) can be stated positionally.  The
erasure theorems below show the mirror computes exactly the pipeline. -/

def structuralSplitT (P : StructParams) :
    Nat → List (List String) →
      List (Nat × List String) × List (Nat × List String)
  | _, [] => ([], [])
  | i, row :: rest =>
    let r := structuralSplitT P (i + 1) rest
    if P.removeEmptyRows && rowIsEmpty row then r
    else if i == P.headerIndex then
      ((i, normalizeOutputRow (padRow row P.tableLen)) :: r.1, r.2)
    else
      let rowPadded := padRow row P.tableLen
      if P.removeDuplicateHeaderRows && sameRow rowPadded P.headerNorm then
        (r.1, (i, normalizeOutputRow rowPadded) :: r.2)
      else if P.removeFooterKeywordRows &&
          hitFooterKeywords rowPadded P.footerKeywords then
        (r.1, (i, normalizeOutputRow rowPadded) :: r.2)
      else ((i, normalizeOutputRow rowPadded) :: r.1, r.2)

def customSplitT (compiledRules : List CompiledRemoveRule) :
    List (Nat × List String) →
      List (Nat × List String) × List (Nat × List String)
  | [] => ([], [])
  | row :: rest =>
    let r := customSplitT compiledRules rest
    if compiledRules.any (fun c => c.test row.2) then (r.1, row :: r.2)
    else (row :: r.1, r.2)

def customResultT (env : JsEnv) (rules : Option (List CsvRemoveRule))
    (cleanedBase : List (Nat × List String)) :
    List (Nat × List String) × List (Nat × List String) :=
  if 1 < cleanedBase.length ∧ rules.getD [] ≠ [] then
    match cleanedBase with
    | [] => (cleanedBase, [])
    | headerRow :: data =>
      let compiledRules := compileRemoveRules env headerRow.2 rules
      if compiledRules.isEmpty then (cleanedBase, [])
      else
        let kr := customSplitT compiledRules data
        (headerRow :: kr.1, kr.2)
  else (cleanedBase, [])

def temporalSplitT (env : JsEnv) (mode : EventTimeFilterMode)
    (startMs endMs : Option Int) (eventTimeIdx : Nat) :
    List (Nat × List String) →
      List (Nat × List String) × List (Nat × List String)
  | [] => ([], [])
  | row :: rest =>
    let r := temporalSplitT env mode startMs endMs eventTimeIdx rest
    if temporalRemoves env mode startMs endMs eventTimeIdx row.2 then
      (r.1, row :: r.2)
    else (row :: r.1, r.2)

def temporalResultT (env : JsEnv) (otf : Option EventTimeFilter)
    (eventTimeNames : List String)
    (cleanedAfterCustom : List (Nat × List String)) :
    List (Nat × List String) × List (Nat × List String) :=
  match otf with
  | none => (cleanedAfterCustom, [])
  | some tf =>
    if tf.enabled = true ∧ 1 < cleanedAfterCustom.length then
      match cleanedAfterCustom with
      | [] => (cleanedAfterCustom, [])
      | headerRow :: data =>
        match findEventTimeColIndex headerRow.2 eventTimeNames with
        | some eventTimeIdx =>
          let kr := temporalSplitT env tf.mode (startMsOf env tf)
            (endMsOf env tf) eventTimeIdx data
          (headerRow :: kr.1, kr.2)
        | none => (cleanedAfterCustom, [])
    else (cleanedAfterCustom, [])

structure TaggedClean where
  kept : List (Nat × List String)
  structuralRemoved : List (Nat × List String)
  customRemoved : List (Nat × List String)
  timeRemoved : List (Nat × List String)

def cleanCsvRowsT (env : JsEnv) (rawRows : List (List String))
    (options : CleanCsvOptions) : TaggedClean :=
  match findHeaderIndex rawRows with
  | none => ⟨[], [], [], []⟩
  | some headerIndex =>
    let sp := structuralSplitT (structParamsOf options rawRows headerIndex)
      0 rawRows
    let cr := customResultT env
      (options.csvConfig.bind (fun c => c.removeRules)) sp.1
    let tr := temporalResultT env options.eventTimeFilter
      (cfgEventTimeNames options.csvConfig) cr.1
    ⟨tr.1, sp.2, cr.2, tr.2⟩

/-- The tagged structural-stage output. -/
def spTOf (rawRows : List (List String)) (opts : CleanCsvOptions) (h : Nat) :
    List (Nat × List String) × List (Nat × List String) :=
  structuralSplitT (structParamsOf opts rawRows h) 0 rawRows

/-- The tagged custom-rule-stage output. -/
def crTOf (env : JsEnv) (rawRows : List (List String)) (opts : CleanCsvOptions)
    (h : Nat) : List (Nat × List String) × List (Nat × List String) :=
  customResultT env (opts.csvConfig.bind (fun c => c.removeRules))
    (spTOf rawRows opts h).1

/-- The tagged temporal-stage output. -/
def trTOf (env : JsEnv) (rawRows : List (List String)) (opts : CleanCsvOptions)
    (h : Nat) : List (Nat × List String) × List (Nat × List String) :=
  temporalResultT env opts.eventTimeFilter (cfgEventTimeNames opts.csvConfig)
    (crTOf env rawRows opts h).1

/-! Model of csvConfig.ts: untrusted JSON ingestion.  JSON values are a plain
inductive; JS member access on a parsed object is association-list lookup
(first binding wins; a parsed JSON object has distinct keys). -/

inductive Json where
  | null
  | bool (b : Bool)
  | num (n : Int)
  | str (s : String)
  | arr (l : List Json)
  | obj (fields : List (String × Json))

/-- JS member access obj.k, none for a missing key. -/
def jget (fs : List (String × Json)) (k : String) : Option Json :=
  (fs.find? (fun p => p.1 == k)).map (fun p => p.2)

/-- csvConfig.ts asBoolean. -/
def asBoolean (v : Option Json) (fallback : Bool) : Bool :=
  match v with
  | some (Json.bool b) => b
  | _ => fallback

/-- csvConfig.ts asStringArray: keep strings, trim them, empty result means
absent. -/
def asStringArray (v : Option Json) : Option (List String) :=
  match v with
  | some (Json.arr l) =>
    let out := (l.filterMap (fun j =>
      match j with
      | Json.str s => some s
      | _ => none)).map trimCell
    if out = [] then none else some out
  | _ => none

/-- The column normalization of csvConfig.ts asRules: '*' is the wildcard,
other strings and numbers pass through, anything else becomes '' which is
falsy; the falsy values '' and 0 make the rule item dropped. -/
def columnOfJson (v : Option Json) : Option ColumnSpec :=
  match v with
  | some (Json.str s) =>
    if s == "*" then some ColumnSpec.star
    else if s == "" then none
    else some (ColumnSpec.name s)
  | some (Json.num n) => if n = 0 then none else some (ColumnSpec.num n)
  | _ => none

/-- One iteration of the csvConfig.ts asRules loop: none models the continue
branches (non-object item, empty name, unknown matchType, falsy column). -/
def asRuleItem (j : Json) : Option CsvRemoveRule :=
  match j with
  | Json.obj fs =>
    let name :=
      match jget fs "name" with
      | some (Json.str s) => s
      | _ => ""
    let omt : Option MatchType :=
      match jget fs "matchType" with
      | some (Json.str s) =>
        if s == "regex" then some MatchType.regex
        else if s == "keywords" then some MatchType.keywords
        else none
      | _ => none
    match columnOfJson (jget fs "column"), omt with
    | some col, some mt =>
      if name == "" then none
      else
        some
          { name := name
            enabled := some
              (match jget fs "enabled" with
               | some (Json.bool b) => b
               | _ => true)
            column := col
            matchType := mt
            pattern :=
              match jget fs "pattern" with
              | some (Json.str s) => some s
              | _ => none
            flags :=
              match jget fs "flags" with
              | some (Json.str s) => some s
              | _ => none
            keywords :=
              match jget fs "keywords" with
              | some (Json.arr l) =>
                some (l.filterMap (fun x =>
                  match x with
                  | Json.str s => some s
                  | _ => none))
              | _ => none
            contains :=
              match jget fs "contains" with
              | some (Json.bool b) => some b
              | _ => none
            caseInsensitive :=
              match jget fs "caseInsensitive" with
              | some (Json.bool b) => some b
              | _ => none }
    | _, _ => none
  | _ => none

/-- csvConfig.ts asRules. -/
def asRules (v : Option Json) : Option (List CsvRemoveRule) :=
  match v with
  | some (Json.arr l) => some (l.filterMap asRuleItem)
  | _ => none

def DEFAULT_CSV_CONFIG : CsvConfig :=
  { eventTimeColumnNames := some ["事件时间"]
    removeEmptyRows := some true
    removeDuplicateHeaderRows := some true
    removeFooterKeywordRows := some true
    footerKeywords := some DEFAULT_FOOTER_KEYWORDS
    removeRules := some [] }

/-- The ?? fallback of csvConfig.ts parseCsvConfig. -/
def orDefault {α : Type} (x d : Option α) : Option α :=
  match x with
  | some v => some v
  | none => d

/-- csvConfig.ts parseCsvConfig. -/
def parseCsvConfig (raw : Json) : CsvConfig :=
  match raw with
  | Json.obj fs =>
    { eventTimeColumnNames :=
        orDefault (asStringArray (jget fs "eventTimeColumnNames"))
          DEFAULT_CSV_CONFIG.eventTimeColumnNames
      removeEmptyRows := some (asBoolean (jget fs "removeEmptyRows") true)
      removeDuplicateHeaderRows :=
        some (asBoolean (jget fs "removeDuplicateHeaderRows") true)
      removeFooterKeywordRows :=
        some (asBoolean (jget fs "removeFooterKeywordRows") true)
      footerKeywords :=
        orDefault (asStringArray (jget fs "footerKeywords"))
          DEFAULT_CSV_CONFIG.footerKeywords
      removeRules :=
        orDefault (asRules (jget fs "removeRules"))
          DEFAULT_CSV_CONFIG.removeRules }
  | _ => DEFAULT_CSV_CONFIG

/-! Concrete fixtures used by counterexamples and witnesses. -/

/-- A wildcard keyword rule matching the cell content X. -/
def ruleKeywordX : CsvRemoveRule :=
  { name := "r", enabled := none, column := ColumnSpec.star,
    matchType := MatchType.keywords, pattern := none, flags := none,
    keywords := some ["X"], contains := none, caseInsensitive := none }

/-- Configuration with blank-row removal off and the rule ruleKeywordX. -/
def cfgNoBlankRemoval : CsvConfig :=
  { eventTimeColumnNames := none, removeEmptyRows := some false,
    removeDuplicateHeaderRows := none, removeFooterKeywordRows := none,
    footerKeywords := none, removeRules := some [ruleKeywordX] }

/-- Configuration with an explicitly empty footerKeywords list. -/
def cfgEmptyFooter : CsvConfig :=
  { eventTimeColumnNames := none, removeEmptyRows := none,
    removeDuplicateHeaderRows := none, removeFooterKeywordRows := none,
    footerKeywords := some [], removeRules := none }

/-- Configuration whose only configured event-time name is whitespace. -/
def cfgBlankTimeName : CsvConfig :=
  { eventTimeColumnNames := some [" "], removeEmptyRows := none,
    removeDuplicateHeaderRows := none, removeFooterKeywordRows := none,
    footerKeywords := none, removeRules := none }

/-- Enabled include-mode filter without bounds. -/
def tfIncludeNoBounds : EventTimeFilter :=
  { enabled := true, startDate := none, endDate := none,
    mode := EventTimeFilterMode.includeMatch }

/-- Enabled exclude-mode filter without bounds. -/
def tfExcludeNoBounds : EventTimeFilter :=
  { enabled := true, startDate := none, endDate := none,
    mode := EventTimeFilterMode.excludeMatch }

/-- Enabled exclude-mode filter with an end bound. -/
def tfExcludeEnd : EventTimeFilter :=
  { enabled := true, startDate := none, endDate := some "2020-01-01",
    mode := EventTimeFilterMode.excludeMatch }

/-- Environment whose clock parses the literal 2024 far past year 2020. -/
def envLateDate : JsEnv :=
  { regexCompile := fun _ _ => none
    dateParse := fun s => if s == "2024" then some 1000000000000 else none
    mkDateMs := fun _ _ _ => some 0 }

/-- Environment for the temporal-filter witnesses: day starts at 0 ms and the
normalized timestamp 2024-01-02T10:00 parses to 50 ms. -/
def envDay : JsEnv :=
  { regexCompile := fun _ _ => none
    dateParse := fun s => if s == "2024-01-02T10:00" then some 50 else none
    mkDateMs := fun _ _ _ => some 0 }

/-- Include-mode filter over the single day 2024-01-02. -/
def tfDay : EventTimeFilter :=
  { enabled := true, startDate := some "2024-01-02",
    endDate := some "2024-01-02", mode := EventTimeFilterMode.includeMatch }

/-- The new (second) start bound is at least the old one: every bound of the
old window is matched by a bound of the new window that starts no earlier.
An absent old bound constrains nothing. -/
def startTighter (old updated : Option Int) : Prop :=
  ∀ s : Int, old = some s → ∃ s2 : Int, updated = some s2 ∧ s ≤ s2

/-- The new (second) end bound is at most the old one; an absent old bound
constrains nothing. -/
def endTighter (old updated : Option Int) : Prop :=
  ∀ e : Int, old = some e → ∃ e2 : Int, updated = some e2 ∧ e2 ≤ e

/-! Basic lemmas about the helpers. -/

theorem filter_partition_length {α : Type} (p : α → Bool) (l : List α) :
    (l.filter p).length + (l.filter (fun a => !(p a))).length = l.length := by
  induction l with
  | nil => rfl
  | cons a t ih =>
    by_cases h : p a = true <;> simp [List.filter_cons, h] <;> omega

theorem customSplit_eq (preds : List CompiledRemoveRule)
    (rows : List (List String)) :
    customSplit preds rows =
      (rows.filter (fun row => !(preds.any (fun c => c.test row))),
       rows.filter (fun row => preds.any (fun c => c.test row))) := by
  induction rows with
  | nil => rfl
  | cons r t ih =>
    by_cases h : (preds.any (fun c => c.test r)) = true <;>
      simp [customSplit, ih, List.filter_cons, h]

theorem temporalSplit_eq (env : JsEnv) (mode : EventTimeFilterMode)
    (startMs endMs : Option Int) (idx : Nat) (rows : List (List String)) :
    temporalSplit env mode startMs endMs idx rows =
      (rows.filter (fun row => !(temporalRemoves env mode startMs endMs idx row)),
       rows.filter (fun row => temporalRemoves env mode startMs endMs idx row)) := by
  induction rows with
  | nil => rfl
  | cons r t ih =>
    by_cases h : (temporalRemoves env mode startMs endMs idx r) = true <;>
      cases mode <;>
      simp_all [temporalSplit, List.filter_cons, temporalRemoves]

theorem dropWhile_head_false {α : Type} (p : α → Bool) (l : List α) (c : α)
    (r : List α) (h : l.dropWhile p = c :: r) : p c = false := by
  induction l with
  | nil => simp at h
  | cons a t ih =>
    by_cases ha : p a = true
    · rw [List.dropWhile_cons_of_pos ha] at h
      exact ih h
    · rw [List.dropWhile_cons_of_neg ha] at h
      cases h
      simp only [Bool.not_eq_true] at ha
      exact ha

theorem dropWhile_suffix {α : Type} (p : α → Bool) (l : List α) :
    l.dropWhile p <:+ l := by
  induction l with
  | nil => simp
  | cons a t ih =>
    by_cases ha : p a = true
    · rw [List.dropWhile_cons_of_pos ha]
      exact ih.trans (List.suffix_cons a t)
    · rw [List.dropWhile_cons_of_neg ha]

theorem dropWhile_idem {α : Type} (p : α → Bool) (l : List α) :
    (l.dropWhile p).dropWhile p = l.dropWhile p := by
  cases h : l.dropWhile p with
  | nil => rfl
  | cons c r =>
    have hc := dropWhile_head_false p l c r h
    rw [List.dropWhile_cons_of_neg (by simp [hc])]

theorem trimChars_idem (l : List Char) : trimChars (trimChars l) = trimChars l := by
  unfold trimChars
  have h1 : ((((l.dropWhile Char.isWhitespace).reverse.dropWhile
      Char.isWhitespace).reverse).dropWhile Char.isWhitespace) =
      ((l.dropWhile Char.isWhitespace).reverse.dropWhile Char.isWhitespace).reverse := by
    cases hBr : ((l.dropWhile Char.isWhitespace).reverse.dropWhile
        Char.isWhitespace).reverse with
    | nil => simp
    | cons c r =>
      have hsuf : (l.dropWhile Char.isWhitespace).reverse.dropWhile Char.isWhitespace <:+
          (l.dropWhile Char.isWhitespace).reverse := dropWhile_suffix _ _
      have hpre : ((l.dropWhile Char.isWhitespace).reverse.dropWhile
          Char.isWhitespace).reverse <+: l.dropWhile Char.isWhitespace := by
        have h2 := List.reverse_prefix.mpr hsuf
        rwa [List.reverse_reverse] at h2
      obtain ⟨s, hs⟩ := hpre
      rw [hBr] at hs
      have hc : Char.isWhitespace c = false :=
        dropWhile_head_false _ l c (r ++ s) (by rw [← List.cons_append, hs])
      rw [List.dropWhile_cons_of_neg (by simp [hc])]
  rw [h1, List.reverse_reverse, dropWhile_idem]

theorem trimCell_idem (v : String) : trimCell (trimCell v) = trimCell v := by
  unfold trimCell
  exact congrArg String.mk (trimChars_idem v.data)

theorem padRow_length (row : List String) (len : Nat) :
    (padRow row len).length = len := by
  unfold padRow
  by_cases h : len ≤ row.length
  · simp [h, Nat.min_eq_left h]
  · simp [h]
    omega

theorem normalizeOutputRow_length (row : List String) :
    (normalizeOutputRow row).length = row.length := by
  simp [normalizeOutputRow]

theorem padRow_mem {row : List String} {len : Nat} {c : String}
    (hlen : row.length ≤ len) (hc : c ∈ row) : c ∈ padRow row len := by
  unfold padRow
  by_cases h : len ≤ row.length
  · have : len = row.length := Nat.le_antisymm h hlen
    subst this
    simpa [List.take_length] using hc
  · simp [h]
    exact Or.inl hc

theorem padRow_mem_rev {row : List String} {len : Nat} {c : String}
    (hc : c ∈ padRow row len) : c ∈ row ∨ c = "" := by
  unfold padRow at hc
  by_cases h : len ≤ row.length
  · rw [if_pos h] at hc
    exact Or.inl (List.mem_of_mem_take hc)
  · rw [if_neg h] at hc
    rcases List.mem_append.mp hc with h1 | h2
    · exact Or.inl h1
    · exact Or.inr (List.eq_of_mem_replicate h2)

theorem rowIsEmpty_false_iff (row : List String) :
    rowIsEmpty row = false ↔ ∃ c ∈ row, ¬(trimCell c = "") := by
  unfold rowIsEmpty
  rw [← Bool.not_eq_true]
  simp [List.all_eq_true]

theorem rowIsEmpty_true_iff (row : List String) :
    rowIsEmpty row = true ↔ ∀ c ∈ row, trimCell c = "" := by
  unfold rowIsEmpty
  simp [List.all_eq_true]

theorem processed_nonblank (row : List String) (len : Nat)
    (hlen : row.length ≤ len) (h : rowIsEmpty row = false) :
    rowIsEmpty (normalizeOutputRow (padRow row len)) = false := by
  rw [rowIsEmpty_false_iff] at h ⊢
  obtain ⟨c, hc, hne⟩ := h
  refine ⟨trimCell c, List.mem_map_of_mem _ (padRow_mem hlen hc), ?_⟩
  rw [trimCell_idem]
  exact hne

theorem processed_blank_eq (row : List String) (len : Nat)
    (h : rowIsEmpty row = true) :
    normalizeOutputRow (padRow row len) = List.replicate len "" := by
  rw [List.eq_replicate_iff]
  constructor
  · rw [normalizeOutputRow_length, padRow_length]
  · intro b hb
    obtain ⟨c, hc, rfl⟩ := List.mem_map.mp hb
    rcases padRow_mem_rev hc with h1 | rfl
    · exact (rowIsEmpty_true_iff row).mp h c h1
    · rfl

theorem padRow_blank (row : List String) (len : Nat)
    (h : rowIsEmpty row = true) : rowIsEmpty (padRow row len) = true := by
  rw [rowIsEmpty_true_iff]
  intro c hc
  rcases padRow_mem_rev hc with h1 | rfl
  · exact (rowIsEmpty_true_iff row).mp h c h1
  · rfl

theorem sameRow_rowIsEmpty (a : List String) :
    ∀ b : List String, sameRow a b = true → rowIsEmpty a = rowIsEmpty b := by
  induction a with
  | nil =>
    intro b h
    cases b with
    | nil => rfl
    | cons y ys => simp [sameRow] at h
  | cons x xs ih =>
    intro b h
    cases b with
    | nil => simp [sameRow] at h
    | cons y ys =>
      simp only [sameRow, List.zip_cons_cons, List.all_cons, List.length_cons,
        Bool.and_eq_true, beq_iff_eq] at h
      obtain ⟨hlen, hhead, htail⟩ := h
      have hxs : sameRow xs ys = true := by
        simp only [sameRow, Bool.and_eq_true, beq_iff_eq]
        exact ⟨by omega, htail⟩
      simp only [rowIsEmpty, List.all_cons]
      rw [show trimCell x = trimCell y from hhead,
        show xs.all (fun c => trimCell c == "") = ys.all (fun c => trimCell c == "")
          from ih ys hxs]

theorem hitFooterKeywords_blank (row : List String) (kws : List String)
    (h : rowIsEmpty row = true) : hitFooterKeywords row kws = false := by
  unfold hitFooterKeywords
  rw [← Bool.not_eq_true]
  simp only [List.any_eq_true, not_exists]
  intro c
  simp only [not_and]
  intro hc
  rw [(rowIsEmpty_true_iff row).mp h c hc]
  simp

theorem structuralSplit_partition (P : StructParams) :
    ∀ (rows : List (List String)) (i : Nat),
    (structuralSplit P i rows).1.length + (structuralSplit P i rows).2.length
      + (rows.filter (fun r => P.removeEmptyRows && rowIsEmpty r)).length
      = rows.length := by
  intro rows
  induction rows with
  | nil => intro i; rfl
  | cons row rest ih =>
    intro i
    have hrec := ih (i + 1)
    rw [List.filter_cons]
    by_cases h1 : (P.removeEmptyRows && rowIsEmpty row) = true
    · simp only [structuralSplit, if_pos h1, List.length_cons]
      omega
    · simp only [structuralSplit, if_neg h1]
      by_cases h2 : (i == P.headerIndex) = true
      · simp only [if_pos h2, List.length_cons]
        omega
      · simp only [if_neg h2]
        by_cases h3 : (P.removeDuplicateHeaderRows &&
            sameRow (padRow row P.tableLen) P.headerNorm) = true
        · simp only [if_pos h3, List.length_cons]
          omega
        · simp only [if_neg h3]
          by_cases h4 : (P.removeFooterKeywordRows &&
              hitFooterKeywords (padRow row P.tableLen) P.footerKeywords) = true
          · simp only [if_pos h4, List.length_cons]
            omega
          · simp only [if_neg h4, List.length_cons]
            omega

theorem structuralSplit_mem (P : StructParams) :
    ∀ (rows : List (List String)) (i : Nat) (r : List String),
    (r ∈ (structuralSplit P i rows).1 ∨ r ∈ (structuralSplit P i rows).2) →
    ∃ raw ∈ rows, r = normalizeOutputRow (padRow raw P.tableLen) := by
  intro rows
  induction rows with
  | nil => intro i r h; rcases h with h | h <;> cases h
  | cons row rest ih =>
    intro i r h
    have step : (∃ raw ∈ rest, r = normalizeOutputRow (padRow raw P.tableLen)) →
        ∃ raw ∈ row :: rest, r = normalizeOutputRow (padRow raw P.tableLen) := by
      rintro ⟨raw, hraw, hr⟩
      exact ⟨raw, List.mem_cons_of_mem _ hraw, hr⟩
    have self : r = normalizeOutputRow (padRow row P.tableLen) →
        ∃ raw ∈ row :: rest, r = normalizeOutputRow (padRow raw P.tableLen) :=
      fun hr => ⟨row, List.mem_cons_self _ _, hr⟩
    simp only [structuralSplit] at h
    by_cases h1 : (P.removeEmptyRows && rowIsEmpty row) = true
    · rw [if_pos h1] at h
      exact step (ih (i + 1) r h)
    · rw [if_neg h1] at h
      by_cases h2 : (i == P.headerIndex) = true
      · rw [if_pos h2] at h
        rcases h with h | h
        · rcases List.mem_cons.mp h with h | h
          · exact self h
          · exact step (ih (i + 1) r (Or.inl h))
        · exact step (ih (i + 1) r (Or.inr h))
      · rw [if_neg h2] at h
        by_cases h3 : (P.removeDuplicateHeaderRows &&
            sameRow (padRow row P.tableLen) P.headerNorm) = true
        · rw [if_pos h3] at h
          rcases h with h | h
          · exact step (ih (i + 1) r (Or.inl h))
          · rcases List.mem_cons.mp h with h | h
            · exact self h
            · exact step (ih (i + 1) r (Or.inr h))
        · rw [if_neg h3] at h
          by_cases h4 : (P.removeFooterKeywordRows &&
              hitFooterKeywords (padRow row P.tableLen) P.footerKeywords) = true
          · rw [if_pos h4] at h
            rcases h with h | h
            · exact step (ih (i + 1) r (Or.inl h))
            · rcases List.mem_cons.mp h with h | h
              · exact self h
              · exact step (ih (i + 1) r (Or.inr h))
          · rw [if_neg h4] at h
            rcases h with h | h
            · rcases List.mem_cons.mp h with h | h
              · exact self h
              · exact step (ih (i + 1) r (Or.inl h))
            · exact step (ih (i + 1) r (Or.inr h))

theorem structuralSplit_snd_from_nonblank (P : StructParams)
    (hP : P.removeEmptyRows = true) :
    ∀ (rows : List (List String)) (i : Nat) (r : List String),
    r ∈ (structuralSplit P i rows).2 →
    ∃ raw ∈ rows, rowIsEmpty raw = false ∧
      r = normalizeOutputRow (padRow raw P.tableLen) := by
  intro rows
  induction rows with
  | nil => intro i r h; cases h
  | cons row rest ih =>
    intro i r h
    have step : (∃ raw ∈ rest, rowIsEmpty raw = false ∧
        r = normalizeOutputRow (padRow raw P.tableLen)) →
        ∃ raw ∈ row :: rest, rowIsEmpty raw = false ∧
          r = normalizeOutputRow (padRow raw P.tableLen) := by
      rintro ⟨raw, hraw, hb, hr⟩
      exact ⟨raw, List.mem_cons_of_mem _ hraw, hb, hr⟩
    simp only [structuralSplit] at h
    by_cases h1 : (P.removeEmptyRows && rowIsEmpty row) = true
    · rw [if_pos h1] at h
      exact step (ih (i + 1) r h)
    · rw [if_neg h1] at h
      have hnb : rowIsEmpty row = false := by
        have h1c := h1
        simp only [hP, Bool.true_and, Bool.not_eq_true] at h1c
        exact h1c
      by_cases h2 : (i == P.headerIndex) = true
      · rw [if_pos h2] at h
        exact step (ih (i + 1) r h)
      · rw [if_neg h2] at h
        by_cases h3 : (P.removeDuplicateHeaderRows &&
            sameRow (padRow row P.tableLen) P.headerNorm) = true
        · rw [if_pos h3] at h
          rcases List.mem_cons.mp h with h | h
          · exact ⟨row, List.mem_cons_self _ _, hnb, h⟩
          · exact step (ih (i + 1) r h)
        · rw [if_neg h3] at h
          by_cases h4 : (P.removeFooterKeywordRows &&
              hitFooterKeywords (padRow row P.tableLen) P.footerKeywords) = true
          · rw [if_pos h4] at h
            rcases List.mem_cons.mp h with h | h
            · exact ⟨row, List.mem_cons_self _ _, hnb, h⟩
            · exact step (ih (i + 1) r h)
          · rw [if_neg h4] at h
            exact step (ih (i + 1) r h)

theorem structuralSplit_fst_from_nonblank (P : StructParams)
    (hP : P.removeEmptyRows = true) :
    ∀ (rows : List (List String)) (i : Nat) (r : List String),
    r ∈ (structuralSplit P i rows).1 →
    ∃ raw ∈ rows, rowIsEmpty raw = false ∧
      r = normalizeOutputRow (padRow raw P.tableLen) := by
  intro rows
  induction rows with
  | nil => intro i r h; cases h
  | cons row rest ih =>
    intro i r h
    have step : (∃ raw ∈ rest, rowIsEmpty raw = false ∧
        r = normalizeOutputRow (padRow raw P.tableLen)) →
        ∃ raw ∈ row :: rest, rowIsEmpty raw = false ∧
          r = normalizeOutputRow (padRow raw P.tableLen) := by
      rintro ⟨raw, hraw, hb, hr⟩
      exact ⟨raw, List.mem_cons_of_mem _ hraw, hb, hr⟩
    simp only [structuralSplit] at h
    by_cases h1 : (P.removeEmptyRows && rowIsEmpty row) = true
    · rw [if_pos h1] at h
      exact step (ih (i + 1) r h)
    · rw [if_neg h1] at h
      have hnb : rowIsEmpty row = false := by
        have h1c := h1
        simp only [hP, Bool.true_and, Bool.not_eq_true] at h1c
        exact h1c
      by_cases h2 : (i == P.headerIndex) = true
      · rw [if_pos h2] at h
        rcases List.mem_cons.mp h with h | h
        · exact ⟨row, List.mem_cons_self _ _, hnb, h⟩
        · exact step (ih (i + 1) r h)
      · rw [if_neg h2] at h
        by_cases h3 : (P.removeDuplicateHeaderRows &&
            sameRow (padRow row P.tableLen) P.headerNorm) = true
        · rw [if_pos h3] at h
          exact step (ih (i + 1) r h)
        · rw [if_neg h3] at h
          by_cases h4 : (P.removeFooterKeywordRows &&
              hitFooterKeywords (padRow row P.tableLen) P.footerKeywords) = true
          · rw [if_pos h4] at h
            exact step (ih (i + 1) r h)
          · rw [if_neg h4] at h
            rcases List.mem_cons.mp h with h | h
            · exact ⟨row, List.mem_cons_self _ _, hnb, h⟩
            · exact step (ih (i + 1) r h)

theorem customResult_partition (env : JsEnv)
    (rules : Option (List CsvRemoveRule)) (base : List (List String)) :
    (customResult env rules base).1.length + (customResult env rules base).2.length
      = base.length := by
  unfold customResult
  by_cases hg : 1 < base.length ∧ rules.getD [] ≠ []
  · rw [if_pos hg]
    cases base with
    | nil => simp
    | cons hdr data =>
      dsimp only
      by_cases hc : (compileRemoveRules env hdr rules).isEmpty = true
      · rw [if_pos hc]
        simp
      · rw [if_neg hc]
        rw [customSplit_eq]
        simp only [List.length_cons]
        have hpart := filter_partition_length
          (fun row => (compileRemoveRules env hdr rules).any (fun c => c.test row)) data
        omega
  · rw [if_neg hg]
    simp

theorem customResult_fst_mem (env : JsEnv) (rules : Option (List CsvRemoveRule))
    (base : List (List String)) (r : List String)
    (h : r ∈ (customResult env rules base).1) : r ∈ base := by
  unfold customResult at h
  by_cases hg : 1 < base.length ∧ rules.getD [] ≠ []
  · rw [if_pos hg] at h
    cases base with
    | nil => exact h
    | cons hdr data =>
      dsimp only at h
      by_cases hc : (compileRemoveRules env hdr rules).isEmpty = true
      · rw [if_pos hc] at h
        exact h
      · rw [if_neg hc] at h
        rw [customSplit_eq] at h
        rcases List.mem_cons.mp h with h | h
        · exact h ▸ List.mem_cons_self _ _
        · exact List.mem_cons_of_mem _ (List.mem_of_mem_filter h)
  · rw [if_neg hg] at h
    exact h

theorem customResult_snd_mem (env : JsEnv) (rules : Option (List CsvRemoveRule))
    (base : List (List String)) (r : List String)
    (h : r ∈ (customResult env rules base).2) : r ∈ base := by
  unfold customResult at h
  by_cases hg : 1 < base.length ∧ rules.getD [] ≠ []
  · rw [if_pos hg] at h
    cases base with
    | nil => exact absurd h (List.not_mem_nil r)
    | cons hdr data =>
      dsimp only at h
      by_cases hc : (compileRemoveRules env hdr rules).isEmpty = true
      · rw [if_pos hc] at h
        exact absurd h (List.not_mem_nil r)
      · rw [if_neg hc] at h
        rw [customSplit_eq] at h
        exact List.mem_cons_of_mem _ (List.mem_of_mem_filter h)
  · rw [if_neg hg] at h
    exact absurd h (List.not_mem_nil r)

theorem temporalResult_partition (env : JsEnv) (otf : Option EventTimeFilter)
    (names : List String) (after : List (List String)) :
    (temporalResult env otf names after).1.length
      + (temporalResult env otf names after).2.length = after.length := by
  unfold temporalResult
  cases otf with
  | none => simp
  | some tf =>
    dsimp only
    by_cases hg : tf.enabled = true ∧ 1 < after.length
    · rw [if_pos hg]
      cases after with
      | nil => simp
      | cons hdr data =>
        dsimp only
        cases hidx : findEventTimeColIndex hdr names with
        | none => simp [hidx]
        | some idx =>
          dsimp only
          rw [temporalSplit_eq]
          simp only [List.length_cons]
          have hpart := filter_partition_length
            (fun row => temporalRemoves env tf.mode (startMsOf env tf)
              (endMsOf env tf) idx row) data
          omega
    · rw [if_neg hg]
      simp

theorem temporalResult_fst_mem (env : JsEnv) (otf : Option EventTimeFilter)
    (names : List String) (after : List (List String)) (r : List String)
    (h : r ∈ (temporalResult env otf names after).1) : r ∈ after := by
  unfold temporalResult at h
  cases otf with
  | none => exact h
  | some tf =>
    dsimp only at h
    by_cases hg : tf.enabled = true ∧ 1 < after.length
    · rw [if_pos hg] at h
      cases after with
      | nil => exact h
      | cons hdr data =>
        dsimp only at h
        cases hidx : findEventTimeColIndex hdr names with
        | none => rw [hidx] at h; exact h
        | some idx =>
          rw [hidx] at h
          have h2 : r ∈ hdr :: (temporalSplit env tf.mode (startMsOf env tf)
              (endMsOf env tf) idx data).1 := h
          rw [temporalSplit_eq] at h2
          rcases List.mem_cons.mp h2 with h3 | h3
          · exact h3 ▸ List.mem_cons_self _ _
          · exact List.mem_cons_of_mem _ (List.mem_of_mem_filter h3)
    · rw [if_neg hg] at h
      exact h

theorem temporalResult_snd_mem (env : JsEnv) (otf : Option EventTimeFilter)
    (names : List String) (after : List (List String)) (r : List String)
    (h : r ∈ (temporalResult env otf names after).2) : r ∈ after := by
  unfold temporalResult at h
  cases otf with
  | none => exact absurd h (List.not_mem_nil r)
  | some tf =>
    dsimp only at h
    by_cases hg : tf.enabled = true ∧ 1 < after.length
    · rw [if_pos hg] at h
      cases after with
      | nil => exact absurd h (List.not_mem_nil r)
      | cons hdr data =>
        dsimp only at h
        cases hidx : findEventTimeColIndex hdr names with
        | none => rw [hidx] at h; exact absurd h (List.not_mem_nil r)
        | some idx =>
          rw [hidx] at h
          have h2 : r ∈ (temporalSplit env tf.mode (startMsOf env tf)
              (endMsOf env tf) idx data).2 := h
          rw [temporalSplit_eq] at h2
          exact List.mem_cons_of_mem _ (List.mem_of_mem_filter h2)
    · rw [if_neg hg] at h
      exact absurd h (List.not_mem_nil r)

theorem foldl_max_init (l : List (List String)) :
    ∀ a : Nat, a ≤ l.foldl (fun m r => max m r.length) a := by
  induction l with
  | nil => intro a; exact Nat.le_refl a
  | cons x t ih =>
    intro a
    exact le_trans (Nat.le_max_left a x.length) (ih (max a x.length))

theorem foldl_max_mem (l : List (List String)) :
    ∀ (a : Nat) (r : List String), r ∈ l →
      r.length ≤ l.foldl (fun m r => max m r.length) a := by
  induction l with
  | nil => intro a r h; exact absurd h (List.not_mem_nil r)
  | cons x t ih =>
    intro a r h
    rcases List.mem_cons.mp h with rfl | h
    · exact le_trans (Nat.le_max_right a r.length) (foldl_max_init t _)
    · exact ih _ r h

theorem maxRowLen_ge (rows : List (List String)) :
    ∀ r ∈ rows, r.length ≤ maxRowLen rows := by
  intro r h
  exact foldl_max_mem rows 0 r h

theorem tableLenOf_ge (rawRows : List (List String)) (hidx : Nat) :
    ∀ r ∈ rawRows, r.length ≤ tableLenOf rawRows hidx := by
  intro r h
  exact le_trans (maxRowLen_ge rawRows r h) (Nat.le_max_right _ _)

theorem cleanCsvRows_none_eq (env : JsEnv) (rawRows : List (List String))
    (opts : CleanCsvOptions) (hh : findHeaderIndex rawRows = none) :
    cleanCsvRows env rawRows opts =
      { headerIndex := -1
        originalRowCount := rawRows.length
        cleanedRowCount := 0
        removedRowCount := rawRows.length
        rows := []
        removedRows := []
        removedByTimeRows := []
        removedByCustomRows := [] } := by
  unfold cleanCsvRows
  rw [hh]

theorem cleanCsvRows_some_eq (env : JsEnv) (rawRows : List (List String))
    (opts : CleanCsvOptions) (h : Nat) (hh : findHeaderIndex rawRows = some h) :
    cleanCsvRows env rawRows opts =
      { headerIndex := (h : Int)
        originalRowCount := rawRows.length
        cleanedRowCount := (trOf env rawRows opts h).1.length
        removedRowCount := rawRows.length - (trOf env rawRows opts h).1.length
        rows := (trOf env rawRows opts h).1
        removedRows := (spOf rawRows opts h).2 ++ (crOf env rawRows opts h).2
          ++ (trOf env rawRows opts h).2
        removedByTimeRows := (trOf env rawRows opts h).2
        removedByCustomRows := (crOf env rawRows opts h).2 } := by
  unfold cleanCsvRows
  rw [hh]
  rfl

/-- C1: for every input table and options, the CleanResult of cleanCsvRows
satisfies cleanedRowCount + removedRowCount = originalRowCount, and
removedRowCount equals the number of dropped blank rows plus the number of
rows listed in the structural, custom-rule and temporal removed-row lists
(removedRows is their concatenation); dropped blank rows appear in no list:
whenever blank-row removal is enabled, every listed row is non-blank. -/
theorem cleanCsvRows_count_invariant (env : JsEnv)
    (rawRows : List (List String)) (opts : CleanCsvOptions) :
    ∃ structRows : List (List String),
      (cleanCsvRows env rawRows opts).removedRows
        = structRows ++ (cleanCsvRows env rawRows opts).removedByCustomRows
          ++ (cleanCsvRows env rawRows opts).removedByTimeRows ∧
      (cleanCsvRows env rawRows opts).cleanedRowCount
          + (cleanCsvRows env rawRows opts).removedRowCount
        = (cleanCsvRows env rawRows opts).originalRowCount ∧
      (cleanCsvRows env rawRows opts).removedRowCount
        = blanksDroppedCount rawRows opts + structRows.length
          + (cleanCsvRows env rawRows opts).removedByCustomRows.length
          + (cleanCsvRows env rawRows opts).removedByTimeRows.length ∧
      (cfgRemoveEmptyRows opts.csvConfig = true →
        ∀ r ∈ (cleanCsvRows env rawRows opts).removedRows,
          rowIsEmpty r = false) := by
  cases hh : findHeaderIndex rawRows with
  | none =>
    rw [cleanCsvRows_none_eq env rawRows opts hh]
    refine ⟨[], rfl, ?_, ?_, ?_⟩
    · show (0 : Nat) + rawRows.length = rawRows.length
      omega
    · show rawRows.length = blanksDroppedCount rawRows opts + 0 + 0 + 0
      unfold blanksDroppedCount
      rw [hh]
      rfl
    · intro _ r hr
      exact absurd hr (List.not_mem_nil r)
  | some h =>
    rw [cleanCsvRows_some_eq env rawRows opts h hh]
    have hS : (spOf rawRows opts h).1.length + (spOf rawRows opts h).2.length
        + (rawRows.filter (fun r =>
            (structParamsOf opts rawRows h).removeEmptyRows && rowIsEmpty r)).length
        = rawRows.length :=
      structuralSplit_partition (structParamsOf opts rawRows h) rawRows 0
    have hC : (crOf env rawRows opts h).1.length + (crOf env rawRows opts h).2.length
        = (spOf rawRows opts h).1.length :=
      customResult_partition env (opts.csvConfig.bind (fun c => c.removeRules))
        (spOf rawRows opts h).1
    have hT : (trOf env rawRows opts h).1.length + (trOf env rawRows opts h).2.length
        = (crOf env rawRows opts h).1.length :=
      temporalResult_partition env opts.eventTimeFilter
        (cfgEventTimeNames opts.csvConfig) (crOf env rawRows opts h).1
    have hblanks : (rawRows.filter (fun r =>
        (structParamsOf opts rawRows h).removeEmptyRows && rowIsEmpty r)).length
        = blanksDroppedCount rawRows opts := by
      unfold blanksDroppedCount
      rw [hh]
      rcases Bool.eq_false_or_eq_true (cfgRemoveEmptyRows opts.csvConfig)
        with hrem | hrem
      · rw [if_pos hrem]
        have ht : (structParamsOf opts rawRows h).removeEmptyRows = true := hrem
        rw [ht]
        simp
      · rw [if_neg (by rw [hrem]; exact Bool.false_ne_true)]
        have hf : (structParamsOf opts rawRows h).removeEmptyRows = false := hrem
        rw [hf]
        simp
    refine ⟨(spOf rawRows opts h).2, rfl, ?_, ?_, ?_⟩
    · show (trOf env rawRows opts h).1.length
        + (rawRows.length - (trOf env rawRows opts h).1.length) = rawRows.length
      omega
    · show rawRows.length - (trOf env rawRows opts h).1.length
        = blanksDroppedCount rawRows opts + (spOf rawRows opts h).2.length
          + (crOf env rawRows opts h).2.length + (trOf env rawRows opts h).2.length
      omega
    · intro hrem r hr
      have hr2 : r ∈ (spOf rawRows opts h).2 ++ (crOf env rawRows opts h).2
          ++ (trOf env rawRows opts h).2 := hr
      have hfromSp : r ∈ (spOf rawRows opts h).1 → rowIsEmpty r = false := by
        intro hmem
        obtain ⟨raw, hraw, hnb, rfl⟩ := structuralSplit_fst_from_nonblank
          (structParamsOf opts rawRows h) hrem rawRows 0 r hmem
        exact processed_nonblank raw _ (tableLenOf_ge rawRows h raw hraw) hnb
      rcases List.mem_append.mp hr2 with h1 | h1
      · rcases List.mem_append.mp h1 with h2 | h2
        · obtain ⟨raw, hraw, hnb, rfl⟩ := structuralSplit_snd_from_nonblank
            (structParamsOf opts rawRows h) hrem rawRows 0 r h2
          exact processed_nonblank raw _ (tableLenOf_ge rawRows h raw hraw) hnb
        · exact hfromSp (customResult_snd_mem env _ _ r h2)
      · exact hfromSp (customResult_fst_mem env _ _ r
          (temporalResult_snd_mem env _ _ _ r h1))

theorem cleanCsvRows_count_invariant_witness :
    (cleanCsvRows trivEnv [[""], ["a"], ["合计"]]
      { eventTimeFilter := none, csvConfig := none }).cleanedRowCount = 1 ∧
    (cleanCsvRows trivEnv [[""], ["a"], ["合计"]]
        { eventTimeFilter := none, csvConfig := none }).removedRowCount = 2 ∧
    (cleanCsvRows trivEnv [[""], ["a"], ["合计"]]
        { eventTimeFilter := none, csvConfig := none }).cleanedRowCount
      + (cleanCsvRows trivEnv [[""], ["a"], ["合计"]]
          { eventTimeFilter := none, csvConfig := none }).removedRowCount
      = (cleanCsvRows trivEnv [[""], ["a"], ["合计"]]
          { eventTimeFilter := none, csvConfig := none }).originalRowCount :=
  ⟨by decide, by decide, by
    obtain ⟨s, h1, h2, h3, h4⟩ := cleanCsvRows_count_invariant trivEnv
      [[""], ["a"], ["合计"]] { eventTimeFilter := none, csvConfig := none }
    exact h2⟩

theorem padRow_isPre (row : List String) (len : Nat)
    (hle : row.length ≤ len) : row <+: padRow row len := by
  unfold padRow
  by_cases hc : len ≤ row.length
  · have heq : len = row.length := Nat.le_antisymm hc hle
    rw [if_pos hc, heq, List.take_length]
  · rw [if_neg hc]
    exact ⟨List.replicate (len - row.length) "", rfl⟩

/-- C3: whenever a header row exists, every kept row and every listed removed
row has exactly tableLen cells, where tableLen is the maximum of the header
length and the longest raw row; no raw row is longer than tableLen, so
padding never discards a cell (each raw row is a prefix of its padded form). -/
theorem cleanCsvRows_width_invariant (env : JsEnv)
    (rawRows : List (List String)) (opts : CleanCsvOptions) (h : Nat)
    (hh : findHeaderIndex rawRows = some h) :
    tableLenOf rawRows h
      = max (rawRows.getD h []).length (maxRowLen rawRows) ∧
    (∀ r ∈ (cleanCsvRows env rawRows opts).rows,
      r.length = tableLenOf rawRows h) ∧
    (∀ r ∈ (cleanCsvRows env rawRows opts).removedRows,
      r.length = tableLenOf rawRows h) ∧
    (∀ r ∈ rawRows, r.length ≤ tableLenOf rawRows h ∧
      r <+: padRow r (tableLenOf rawRows h)) := by
  have hlen : ∀ r : List String,
      (r ∈ (spOf rawRows opts h).1 ∨ r ∈ (spOf rawRows opts h).2) →
      r.length = tableLenOf rawRows h := by
    intro r hmem
    obtain ⟨raw, _, rfl⟩ := structuralSplit_mem
      (structParamsOf opts rawRows h) rawRows 0 r hmem
    rw [normalizeOutputRow_length, padRow_length]
    rfl
  rw [cleanCsvRows_some_eq env rawRows opts h hh]
  refine ⟨rfl, ?_, ?_, ?_⟩
  · intro r hr
    have hr2 : r ∈ (trOf env rawRows opts h).1 := hr
    exact hlen r (Or.inl (customResult_fst_mem env _ _ r
      (temporalResult_fst_mem env _ _ _ r hr2)))
  · intro r hr
    have hr2 : r ∈ (spOf rawRows opts h).2 ++ (crOf env rawRows opts h).2
        ++ (trOf env rawRows opts h).2 := hr
    rcases List.mem_append.mp hr2 with h1 | h1
    · rcases List.mem_append.mp h1 with h2 | h2
      · exact hlen r (Or.inr h2)
      · exact hlen r (Or.inl (customResult_snd_mem env _ _ r h2))
    · exact hlen r (Or.inl (customResult_fst_mem env _ _ r
        (temporalResult_snd_mem env _ _ _ r h1)))
  · intro r hr
    refine ⟨tableLenOf_ge rawRows h r hr, ?_⟩
    exact padRow_isPre r _ (tableLenOf_ge rawRows h r hr)

theorem cleanCsvRows_width_invariant_witness :
    findHeaderIndex [["a", "b"], ["c"]] = some 0 ∧
    (∀ r ∈ (cleanCsvRows trivEnv [["a", "b"], ["c"]]
        { eventTimeFilter := none, csvConfig := none }).rows,
      r.length = tableLenOf [["a", "b"], ["c"]] 0) :=
  ⟨by decide, (cleanCsvRows_width_invariant trivEnv [["a", "b"], ["c"]]
    { eventTimeFilter := none, csvConfig := none } 0 (by decide)).2.1⟩

theorem containHits_nodup (hdr : List String) (t : String) :
    (containHits hdr t).Nodup := by
  unfold containHits
  have hsub : List.Sublist ((hdr.enum.filter (fun p =>
      let h := trimCell p.2
      !(h == "") && (strContains h t || strContains t h))).map Prod.fst)
      (hdr.enum.map Prod.fst) :=
    (List.filter_sublist _).map Prod.fst
  rw [List.enum_map_fst] at hsub
  exact (List.nodup_range _).sublist hsub

theorem containHits_mem (hdr : List String) (t : String) (j : Nat) :
    j ∈ containHits hdr t ↔ nameQualifies hdr t j := by
  unfold containHits nameQualifies
  simp only [List.mem_map, List.mem_filter]
  constructor
  · rintro ⟨⟨i, a⟩, ⟨henum, hpred⟩, rfl⟩
    rw [List.mk_mem_enum_iff_getElem?] at henum
    have hlt : i < hdr.length := by
      by_contra hge
      rw [List.getElem?_eq_none (Nat.le_of_not_lt hge)] at henum
      cases henum
    have hgetD : hdr.getD i "" = a := by
      rw [List.getD_eq_getElem?_getD, henum, Option.getD_some]
    simp only [Bool.and_eq_true, Bool.or_eq_true, Bool.not_eq_true',
      beq_eq_false_iff_ne, ne_eq] at hpred
    rw [hgetD]
    exact ⟨hlt, hpred.1, hpred.2⟩
  · rintro ⟨hlt, h1, h2⟩
    refine ⟨(j, hdr.getD j ""), ⟨?_, ?_⟩, rfl⟩
    · rw [List.mk_mem_enum_iff_getElem?, List.getD_eq_getElem?_getD,
        List.getElem?_eq_getElem hlt]
      rfl
    · simp only [Bool.and_eq_true, Bool.or_eq_true, Bool.not_eq_true',
        beq_eq_false_iff_ne, ne_eq]
      exact ⟨h1, h2⟩

theorem nodup_mem_singleton {l : List Nat} {j : Nat} (hnd : l.Nodup)
    (hj : j ∈ l) (hall : ∀ x ∈ l, x = j) : l = [j] := by
  cases l with
  | nil => cases hj
  | cons x rest =>
    have hx : x = j := hall x (List.mem_cons_self _ _)
    subst hx
    have hrest : rest = [] := by
      cases rest with
      | nil => rfl
      | cons y t =>
        have hy : y = x := hall y (List.mem_cons_of_mem _ (List.mem_cons_self _ _))
        subst hy
        exact absurd (List.mem_cons_self _ _) (List.nodup_cons.mp hnd).1
    rw [hrest]

/-- C4 counterexample: take the header ["A"] and the name specifier "" (a
string specifier the claim does not exclude).  No header cell trim-equals the
specifier, and position 0 is the single position qualifying under the
containment fallback ("" is contained in "A"), so the claim requires
resolution to index 0; the resolver instead returns none (rule discarded)
because of its guard on the empty trimmed specifier. -/
theorem resolveColumnIndices_claim_counterexample :
    ((["A"] : List String).findIdx?
      (fun hc => trimCell hc == trimCell "") = none) ∧
    nameQualifies ["A"] (trimCell "") 0 ∧
    (∀ k, nameQualifies ["A"] (trimCell "") k → k = 0) ∧
    resolveColumnIndices ["A"] (ColumnSpec.name "") = none := by
  refine ⟨by decide, by unfold nameQualifies; decide, ?_, by decide⟩
  rintro k ⟨hk, _⟩
  simp only [List.length_singleton] at hk
  omega

/-- C4 (amended): for every header row and every name column specifier whose
trimmed form is non-empty: if some header cell trim-equals the specifier, the
resolver returns the first such index (exact match wins over containment);
otherwise, if exactly one position qualifies under the containment fallback,
that single index is returned; and with no unique qualifying position the
specifier is unresolvable (none), so the rule is discarded. -/
theorem resolveColumnIndices_name_spec (headerRow : List String) (c : String)
    (hne : ¬(trimCell c = "")) :
    (∀ i, i < headerRow.length →
      trimCell (headerRow.getD i "") = trimCell c →
      (∀ j, j < i → ¬(trimCell (headerRow.getD j "") = trimCell c)) →
      resolveColumnIndices headerRow (ColumnSpec.name c)
        = some (ResolvedCols.idxs [i])) ∧
    ((∀ cell ∈ headerRow, ¬(trimCell cell = trimCell c)) →
      ∀ j, nameQualifies headerRow (trimCell c) j →
        (∀ k, nameQualifies headerRow (trimCell c) k → k = j) →
        resolveColumnIndices headerRow (ColumnSpec.name c)
          = some (ResolvedCols.idxs [j])) ∧
    ((∀ cell ∈ headerRow, ¬(trimCell cell = trimCell c)) →
      ¬(∃ j, nameQualifies headerRow (trimCell c) j ∧
          ∀ k, nameQualifies headerRow (trimCell c) k → k = j) →
      resolveColumnIndices headerRow (ColumnSpec.name c) = none) := by
  have hbeq : (trimCell c == "") = false := beq_eq_false_iff_ne.mpr hne
  have hgetD : ∀ i (hi : i < headerRow.length),
      headerRow.getD i "" = headerRow[i] := by
    intro i hi
    rw [List.getD_eq_getElem?_getD, List.getElem?_eq_getElem hi]
    rfl
  have hresolve : ∀ r : Option Nat,
      headerRow.findIdx? (fun hcell => trimCell hcell == trimCell c) = r →
      resolveColumnIndices headerRow (ColumnSpec.name c) =
        (match r with
         | some i => some (ResolvedCols.idxs [i])
         | none =>
           if (containHits headerRow (trimCell c)).length == 1 then
             some (ResolvedCols.idxs (containHits headerRow (trimCell c)))
           else none) := by
    intro r hr
    unfold resolveColumnIndices
    simp only [hbeq, Bool.false_eq_true, if_false, hr]
  refine ⟨?_, ?_, ?_⟩
  · intro i hi hexact hfirst
    rw [hresolve (some i) ?_]
    rw [List.findIdx?_eq_some_iff_getElem]
    refine ⟨hi, ?_, ?_⟩
    · rw [beq_iff_eq, ← hgetD i hi]
      exact hexact
    · intro j hj
      simp only [Bool.not_eq_true, beq_eq_false_iff_ne, ne_eq]
      rw [← hgetD j (Nat.lt_trans hj hi)]
      exact hfirst j hj
  · intro hexact j hQ huni
    have hnone : headerRow.findIdx?
        (fun hcell => trimCell hcell == trimCell c) = none := by
      rw [List.findIdx?_eq_none_iff]
      intro x hx
      exact beq_eq_false_iff_ne.mpr (hexact x hx)
    rw [hresolve none hnone]
    have hhits : containHits headerRow (trimCell c) = [j] := by
      apply nodup_mem_singleton (containHits_nodup headerRow (trimCell c))
      · exact (containHits_mem headerRow (trimCell c) j).mpr hQ
      · intro x hx
        exact huni x ((containHits_mem headerRow (trimCell c) x).mp hx)
    rw [hhits]
    rfl
  · intro hexact hnotuni
    have hnone : headerRow.findIdx?
        (fun hcell => trimCell hcell == trimCell c) = none := by
      rw [List.findIdx?_eq_none_iff]
      intro x hx
      exact beq_eq_false_iff_ne.mpr (hexact x hx)
    rw [hresolve none hnone]
    by_cases hlen : (containHits headerRow (trimCell c)).length = 1
    · exfalso
      obtain ⟨j0, hj0⟩ := List.length_eq_one.mp hlen
      refine hnotuni ⟨j0, ?_, ?_⟩
      · exact (containHits_mem headerRow (trimCell c) j0).mp
          (hj0 ▸ List.mem_cons_self _ _)
      · intro k hk
        have := (containHits_mem headerRow (trimCell c) k).mpr hk
        rw [hj0] at this
        exact (List.mem_singleton).mp this
    · rw [if_neg (by simpa using hlen)]

theorem resolveColumnIndices_name_spec_witness :
    ¬(trimCell "A" = "") ∧
    resolveColumnIndices ["A", "AB"] (ColumnSpec.name "A")
      = some (ResolvedCols.idxs [0]) :=
  ⟨by decide, (resolveColumnIndices_name_spec ["A", "AB"] "A" (by decide)).1
    0 (by decide) (by decide) (by intro j hj; omega)⟩

/-- C5: compileRemoveRules is a total function (it cannot raise) that
processes rules one at a time; a rule compiles to nothing exactly when it is
disabled, its column is unresolvable, its regex pattern is empty or fails to
compile (for pattern rules), or its effective keyword set is empty (for
keyword rules); a skipped rule leaves the compilation of the remaining rules
exactly as if it were absent, and a compiling rule contributes its single
predicate in front of the rest. -/
theorem compileRemoveRules_spec (env : JsEnv) (headerRow : List String)
    (r : CsvRemoveRule) (rs : List CsvRemoveRule) :
    compileRemoveRules env headerRow (some (r :: rs))
      = (compileOne env headerRow r).toList
        ++ compileRemoveRules env headerRow (some rs) ∧
    (compileOne env headerRow r = none ↔
      r.enabled = some false ∨
      resolveColumnIndices headerRow r.column = none ∨
      (r.matchType = MatchType.regex ∧
        (r.pattern.getD "" = "" ∨
         env.regexCompile (r.pattern.getD "") (effectiveRegexFlags r) = none)) ∨
      (r.matchType = MatchType.keywords ∧ effectiveRuleKeywords r = [])) := by
  constructor
  · cases hco : compileOne env headerRow r <;>
      simp [compileRemoveRules, List.filterMap_cons, hco]
  · unfold compileOne
    by_cases hen : r.enabled = some false
    · simp [hen]
    · rw [if_neg hen]
      cases hres : resolveColumnIndices headerRow r.column with
      | none => simp [hen, hres]
      | some indices =>
        cases hmt : r.matchType with
        | regex =>
          dsimp only
          by_cases hpat : (r.pattern.getD "" == "") = true
          · rw [if_pos hpat]
            simp only [beq_iff_eq] at hpat
            simp [hen, hres, hpat]
          · rw [if_neg hpat]
            simp only [beq_iff_eq] at hpat
            cases hre : env.regexCompile (r.pattern.getD "")
                (effectiveRegexFlags r) with
            | none => simp [hen, hres, hpat, hre]
            | some re => simp [hen, hres, hpat, hre]
        | keywords =>
          dsimp only
          by_cases hkw : (effectiveRuleKeywords r).isEmpty = true
          · rw [if_pos hkw]
            simp [hen, hres, List.isEmpty_iff.mp hkw]
          · rw [if_neg hkw]
            have hkw2 : ¬(effectiveRuleKeywords r = []) := by
              intro hcontra
              exact hkw (by rw [hcontra]; rfl)
            simp [hen, hres, hkw2]

theorem perm_any_eq {α : Type} {l1 l2 : List α} (hp : l1.Perm l2)
    (q : α → Bool) : l1.any q = l2.any q := by
  cases h1 : l1.any q with
  | true =>
    obtain ⟨x, hx, hq⟩ := List.any_eq_true.mp h1
    exact (List.any_eq_true.mpr ⟨x, hp.subset hx, hq⟩).symm
  | false =>
    cases h2 : l2.any q with
    | false => rfl
    | true =>
      obtain ⟨x, hx, hq⟩ := List.any_eq_true.mp h2
      have hcontra : l1.any q = true :=
        List.any_eq_true.mpr ⟨x, hp.symm.subset hx, hq⟩
      rw [h1] at hcontra
      cases hcontra

/-- C6: whenever the custom-rule filter is applied (at least one data row and
at least one compiled predicate), a data row moves to the custom-removed
bucket exactly when at least one compiled predicate returns true on it
(logical OR over all rules); the row at position 0 of the structurally
cleaned table is kept unconditionally and never tested; the order of rule
declaration is irrelevant to the outcome; with no data row or no compiled
predicate the stage passes all rows through unchanged. -/
theorem customFilter_spec (env : JsEnv) (rules : Option (List CsvRemoveRule))
    (headerRow : List String) (data : List (List String)) :
    (data ≠ [] → compileRemoveRules env headerRow rules ≠ [] →
      customResult env rules (headerRow :: data)
        = (headerRow :: data.filter (fun row =>
            !((compileRemoveRules env headerRow rules).any
              (fun c => c.test row))),
           data.filter (fun row =>
            (compileRemoveRules env headerRow rules).any
              (fun c => c.test row))) ∧
      (∀ row ∈ data,
        (row ∈ (customResult env rules (headerRow :: data)).2 ↔
          ∃ p ∈ compileRemoveRules env headerRow rules, p.test row = true))) ∧
    (∀ rules1 rules2 : List CsvRemoveRule, rules1.Perm rules2 →
      customResult env (some rules1) (headerRow :: data)
        = customResult env (some rules2) (headerRow :: data)) ∧
    (∀ base : List (List String), ¬(1 < base.length) →
      customResult env rules base = (base, [])) ∧
    (compileRemoveRules env headerRow rules = [] →
      customResult env rules (headerRow :: data)
        = (headerRow :: data, [])) := by
  have hmain : ∀ (rls : Option (List CsvRemoveRule)), data ≠ [] →
      compileRemoveRules env headerRow rls ≠ [] →
      customResult env rls (headerRow :: data)
        = (headerRow :: data.filter (fun row =>
            !((compileRemoveRules env headerRow rls).any (fun c => c.test row))),
           data.filter (fun row =>
            (compileRemoveRules env headerRow rls).any (fun c => c.test row))) := by
    intro rls hdata hcomp
    have hrls : rls.getD [] ≠ [] := by
      cases rls with
      | none => exact absurd rfl hcomp
      | some l =>
        intro hcontra
        simp only [Option.getD_some] at hcontra
        rw [hcontra] at hcomp
        exact absurd rfl hcomp
    have hlen : 1 < (headerRow :: data).length := by
      cases data with
      | nil => exact absurd rfl hdata
      | cons x t => simp [List.length_cons]
    unfold customResult
    rw [if_pos ⟨hlen, hrls⟩]
    dsimp only
    rw [if_neg (by
      intro hcontra
      exact hcomp (List.isEmpty_iff.mp hcontra))]
    rw [customSplit_eq]
  refine ⟨?_, ?_, ?_, ?_⟩
  · intro hdata hcomp
    refine ⟨hmain rules hdata hcomp, ?_⟩
    intro row hrow
    rw [hmain rules hdata hcomp]
    simp only [List.mem_filter, List.any_eq_true]
    constructor
    · rintro ⟨_, h2⟩
      exact h2
    · intro h2
      exact ⟨hrow, h2⟩
  · intro rules1 rules2 hp
    have hcompPerm : (compileRemoveRules env headerRow (some rules1)).Perm
        (compileRemoveRules env headerRow (some rules2)) :=
      List.Perm.filterMap (compileOne env headerRow) hp
    have hany : ∀ row : List String,
        (compileRemoveRules env headerRow (some rules1)).any (fun c => c.test row)
          = (compileRemoveRules env headerRow (some rules2)).any
            (fun c => c.test row) := by
      intro row
      exact perm_any_eq hcompPerm _
    unfold customResult
    have hglen : (some rules1 : Option (List CsvRemoveRule)).getD [] ≠ [] ↔
        (some rules2 : Option (List CsvRemoveRule)).getD [] ≠ [] := by
      simp only [Option.getD_some]
      constructor <;> intro hne hcontra
      · rw [hcontra] at hp
        exact hne (List.Perm.eq_nil hp)
      · rw [hcontra] at hp
        exact hne (List.Perm.eq_nil hp.symm)
    by_cases hg : 1 < (headerRow :: data).length ∧
        (some rules1 : Option (List CsvRemoveRule)).getD [] ≠ []
    · rw [if_pos hg, if_pos ⟨hg.1, hglen.mp hg.2⟩]
      dsimp only
      have hiso : (compileRemoveRules env headerRow (some rules1)).isEmpty
          = (compileRemoveRules env headerRow (some rules2)).isEmpty := by
        cases he1 : (compileRemoveRules env headerRow (some rules1)).isEmpty with
        | true =>
          rw [List.isEmpty_iff.mp he1] at hcompPerm
          rw [List.isEmpty_iff.mpr (List.Perm.eq_nil hcompPerm.symm)]
        | false =>
          cases he2 : (compileRemoveRules env headerRow (some rules2)).isEmpty with
          | false => rfl
          | true =>
            rw [List.isEmpty_iff.mp he2] at hcompPerm
            rw [← he1, List.isEmpty_iff.mpr (List.Perm.eq_nil hcompPerm)]
      by_cases he : (compileRemoveRules env headerRow (some rules1)).isEmpty = true
      · rw [if_pos he, if_pos (hiso ▸ he)]
      · rw [if_neg he, if_neg (hiso ▸ he)]
        rw [customSplit_eq, customSplit_eq]
        have hfun1 : (fun row => !((compileRemoveRules env headerRow
            (some rules1)).any (fun c => c.test row)))
            = (fun row => !((compileRemoveRules env headerRow
              (some rules2)).any (fun c => c.test row))) := by
          funext row
          rw [hany row]
        have hfun2 : (fun row => (compileRemoveRules env headerRow
            (some rules1)).any (fun c => c.test row))
            = (fun row => (compileRemoveRules env headerRow
              (some rules2)).any (fun c => c.test row)) := by
          funext row
          rw [hany row]
        rw [hfun1, hfun2]
    · rw [if_neg hg, if_neg (by
        intro hcontra
        exact hg ⟨hcontra.1, hglen.mpr hcontra.2⟩)]
  · intro base hlen
    unfold customResult
    rw [if_neg (by
      intro hcontra
      exact hlen hcontra.1)]
  · intro hcomp
    unfold customResult
    by_cases hg : 1 < (headerRow :: data).length ∧ rules.getD [] ≠ []
    · rw [if_pos hg]
      dsimp only
      rw [if_pos (List.isEmpty_iff.mpr hcomp)]
    · rw [if_neg hg]

theorem customFilter_spec_witness :
    customResult trivEnv (some [ruleKeywordX]) [["h"], ["X"], ["y"]]
      = ([["h"], ["y"]], [["X"]]) := by
  have hlen : (compileRemoveRules trivEnv ["h"] (some [ruleKeywordX])).length
      = 1 := by decide
  have hne : compileRemoveRules trivEnv ["h"] (some [ruleKeywordX]) ≠ [] := by
    intro hcontra
    rw [hcontra] at hlen
    cases hlen
  have heq := ((customFilter_spec trivEnv (some [ruleKeywordX]) ["h"]
    [["X"], ["y"]]).1 (by decide) hne).1
  rw [heq]
  decide

theorem matchTimeRange_iff (t s e : Option Int) :
    matchTimeRange t s e = true ↔
      ∃ v, t = some v ∧ (s = none ∨ ∃ a, s = some a ∧ a ≤ v) ∧
        (e = none ∨ ∃ b, e = some b ∧ v ≤ b) := by
  cases t with
  | none => simp [matchTimeRange]
  | some v =>
    cases s with
    | none =>
      cases e with
      | none => simp [matchTimeRange]
      | some b => simp [matchTimeRange, Int.not_lt]
    | some a =>
      cases e with
      | none => simp [matchTimeRange, Int.not_lt]
      | some b => simp [matchTimeRange, Int.not_lt]

/-- C7: with the temporal filter enabled in includeMatch mode, at least one
data row remaining and the event-time column resolved, a data row is kept
exactly when its event-time cell parses to an instant t with (no start bound
or t at or after the computed start instant) and (no end bound or t at or
before the computed end instant); a row with an unparseable cell is moved to
the temporal-removed bucket and filtered out of the kept rows; the end bound
is the start of the end day plus 86399999 ms, the day's last millisecond
23:59:59.999. -/
theorem temporalFilter_spec (env : JsEnv) (tf : EventTimeFilter)
    (names : List String) (headerRow : List String)
    (data : List (List String)) (j : Nat)
    (henabled : tf.enabled = true)
    (hmode : tf.mode = EventTimeFilterMode.includeMatch)
    (hdata : data ≠ [])
    (hidx : findEventTimeColIndex headerRow names = some j) :
    (temporalResult env (some tf) names (headerRow :: data)
      = (headerRow :: data.filter (fun r =>
          matchTimeRange (parseEventTimeMs env (r.getD j ""))
            (startMsOf env tf) (endMsOf env tf)),
         data.filter (fun r =>
          !(matchTimeRange (parseEventTimeMs env (r.getD j ""))
            (startMsOf env tf) (endMsOf env tf))))) ∧
    (∀ r ∈ data,
      (matchTimeRange (parseEventTimeMs env (r.getD j ""))
          (startMsOf env tf) (endMsOf env tf) = true ↔
        ∃ t, parseEventTimeMs env (r.getD j "") = some t ∧
          (startMsOf env tf = none ∨
            ∃ s, startMsOf env tf = some s ∧ s ≤ t) ∧
          (endMsOf env tf = none ∨
            ∃ e, endMsOf env tf = some e ∧ t ≤ e))) ∧
    (∀ r ∈ data, parseEventTimeMs env (r.getD j "") = none →
      matchTimeRange (parseEventTimeMs env (r.getD j ""))
          (startMsOf env tf) (endMsOf env tf) = false ∧
      r ∈ (temporalResult env (some tf) names (headerRow :: data)).2) ∧
    (∀ d : String, dateToEndMs env d
      = (dateToStartMs env d).map (fun s => s + 86399999)) := by
  have hlen : 1 < (headerRow :: data).length := by
    cases data with
    | nil => exact absurd rfl hdata
    | cons x t => simp [List.length_cons]
  have hmain : temporalResult env (some tf) names (headerRow :: data)
      = (headerRow :: data.filter (fun r =>
          matchTimeRange (parseEventTimeMs env (r.getD j ""))
            (startMsOf env tf) (endMsOf env tf)),
         data.filter (fun r =>
          !(matchTimeRange (parseEventTimeMs env (r.getD j ""))
            (startMsOf env tf) (endMsOf env tf)))) := by
    unfold temporalResult
    dsimp only
    rw [if_pos ⟨henabled, hlen⟩]
    rw [hidx]
    have hsplit : temporalSplit env tf.mode (startMsOf env tf) (endMsOf env tf)
        j data =
        (data.filter (fun row => !(temporalRemoves env tf.mode
          (startMsOf env tf) (endMsOf env tf) j row)),
         data.filter (fun row => temporalRemoves env tf.mode
          (startMsOf env tf) (endMsOf env tf) j row)) :=
      temporalSplit_eq env tf.mode (startMsOf env tf) (endMsOf env tf) j data
    show (headerRow :: (temporalSplit env tf.mode (startMsOf env tf)
        (endMsOf env tf) j data).1,
      (temporalSplit env tf.mode (startMsOf env tf)
        (endMsOf env tf) j data).2) = _
    rw [hsplit]
    rw [hmode]
    have hfun1 : (fun row : List String => !(temporalRemoves env
        EventTimeFilterMode.includeMatch (startMsOf env tf) (endMsOf env tf)
          j row))
        = (fun r => matchTimeRange (parseEventTimeMs env (r.getD j ""))
            (startMsOf env tf) (endMsOf env tf)) := by
      funext row
      simp [temporalRemoves]
    have hfun2 : (fun row : List String => temporalRemoves env
        EventTimeFilterMode.includeMatch (startMsOf env tf) (endMsOf env tf)
          j row)
        = (fun r => !(matchTimeRange (parseEventTimeMs env (r.getD j ""))
            (startMsOf env tf) (endMsOf env tf))) := by
      funext row
      simp [temporalRemoves]
    rw [hfun1, hfun2]
  refine ⟨hmain, ?_, ?_, ?_⟩
  · intro r _
    exact matchTimeRange_iff _ _ _
  · intro r hr hparse
    have hfalse : matchTimeRange (parseEventTimeMs env (r.getD j ""))
        (startMsOf env tf) (endMsOf env tf) = false := by
      rw [hparse]
      rfl
    refine ⟨hfalse, ?_⟩
    rw [hmain]
    refine List.mem_filter.mpr ⟨hr, ?_⟩
    rw [hfalse]
    rfl
  · intro d
    unfold dateToEndMs dateToStartMs
    cases parseYmd d with
    | none => rfl
    | some ymd =>
      dsimp only
      cases env.mkDateMs ymd.1 ymd.2.1 ymd.2.2 with
      | none => rfl
      | some s => rfl

theorem temporalFilter_spec_witness :
    findEventTimeColIndex ["事件时间"] ["事件时间"] = some 0 ∧
    temporalResult envDay (some tfDay) ["事件时间"]
      [["事件时间"], ["2024-01-02 10:00"], ["bad"]]
      = ([["事件时间"], ["2024-01-02 10:00"]], [["bad"]]) := by
  refine ⟨by decide, ?_⟩
  have heq := (temporalFilter_spec envDay tfDay ["事件时间"] ["事件时间"]
    [["2024-01-02 10:00"], ["bad"]] 0 (by decide) (by decide) (by decide)
    (by decide)).1
  rw [heq]
  decide

/-- C8 counterexample: the configuration names exactly one event-time column,
the whitespace string, and no header cell trim-equals it; yet with the filter
enabled the temporal stage is not a no-op: because the resolver drops
whitespace-only names and falls back to the default 事件时间, the header cell
事件时间 resolves and the unparseable data row is moved to the
temporal-removed bucket. -/
theorem temporalNoop_claim_counterexample :
    (∀ c ∈ (["事件时间", "x"] : List String), ∀ nm ∈ ([" "] : List String),
      ¬(trimCell c = trimCell nm)) ∧
    cfgBlankTimeName.eventTimeColumnNames = some [" "] ∧
    (cleanCsvRows trivEnv [["事件时间"], ["x"]]
      { eventTimeFilter := some tfIncludeNoBounds,
        csvConfig := some cfgBlankTimeName }).removedByTimeRows = [["x"]] := by
  refine ⟨by decide, rfl, by decide⟩

theorem contains_eq_false_of_not_mem {l : List String} {a : String}
    (h : a ∉ l) : l.contains a = false := by
  cases hc : l.contains a with
  | false => rfl
  | true => exact absurd (List.elem_iff.mp hc) h

/-- C8 (amended): when no header cell trim-equals any candidate event-time
name, where the candidates are the configured names with non-empty trim or
the built-in default 事件时间 when there are none, the event-time column does
not resolve and the temporal filter passes all rows through unchanged with an
empty temporal-removed bucket, regardless of the enabled flag and the date
bounds; the same pass-through holds when the filter is absent or disabled or
fewer than two rows remain. -/
theorem temporalNoop_spec (env : JsEnv) (names : List String)
    (headerRow : List String) (data : List (List String))
    (hset : ((names.map trimCell).filter (fun s => !(s == "")) ≠ [] →
        ∀ c ∈ headerRow,
          trimCell c ∉ (names.map trimCell).filter (fun s => !(s == ""))) ∧
      ((names.map trimCell).filter (fun s => !(s == "")) = [] →
        ∀ c ∈ headerRow, ¬(trimCell c = "事件时间"))) :
    findEventTimeColIndex headerRow names = none ∧
    (∀ otf : Option EventTimeFilter,
      temporalResult env otf names (headerRow :: data)
        = (headerRow :: data, [])) ∧
    (∀ (otf : Option EventTimeFilter) (after : List (List String)),
      (otf = none ∨ (∀ tf, otf = some tf → tf.enabled = false) ∨
        ¬(1 < after.length)) →
      temporalResult env otf names after = (after, [])) := by
  have hfind : findEventTimeColIndex headerRow names = none := by
    unfold findEventTimeColIndex
    rw [List.findIdx?_eq_none_iff]
    intro c hc
    by_cases hempty : ((names.map trimCell).filter (fun s => !(s == ""))).isEmpty
      = true
    · rw [if_pos hempty]
      apply contains_eq_false_of_not_mem
      intro hmem
      exact (hset.2 (List.isEmpty_iff.mp hempty)) c hc
        ((List.mem_singleton).mp hmem)
    · rw [if_neg hempty]
      apply contains_eq_false_of_not_mem
      exact (hset.1 (fun hcontra => hempty (List.isEmpty_iff.mpr hcontra))) c hc
  refine ⟨hfind, ?_, ?_⟩
  · intro otf
    cases otf with
    | none => rfl
    | some tf =>
      unfold temporalResult
      dsimp only
      by_cases hg : tf.enabled = true ∧ 1 < (headerRow :: data).length
      · rw [if_pos hg]
        rw [hfind]
      · rw [if_neg hg]
  · intro otf after hcase
    cases otf with
    | none => rfl
    | some tf =>
      unfold temporalResult
      dsimp only
      rcases hcase with hcase | hcase | hcase
      · cases hcase
      · rw [if_neg (by
          intro hg
          rw [hcase tf rfl] at hg
          cases hg.1)]
      · rw [if_neg (by
          intro hg
          exact hcase hg.2)]

theorem temporalNoop_spec_witness :
    temporalResult trivEnv (some tfIncludeNoBounds) ["其他"] [["时间"], ["x"]]
      = ([["时间"], ["x"]], []) :=
  (temporalNoop_spec trivEnv ["其他"] ["时间"] [["x"]]
    ⟨by decide, by decide⟩).2.1 (some tfIncludeNoBounds)

theorem structuralSplit_footer_toggle_off (P : StructParams)
    (kws : List String) (hoff : P.removeFooterKeywordRows = false) :
    ∀ (rows : List (List String)) (i : Nat),
      structuralSplit P i rows
        = structuralSplit { P with footerKeywords := kws } i rows := by
  intro rows
  induction rows with
  | nil => intro i; rfl
  | cons row rest ih =>
    intro i
    simp only [structuralSplit, ih (i + 1), hoff, Bool.false_and,
      Bool.false_eq_true, if_false]

theorem cfgFooterKeywords_default (cfg : CsvConfig)
    (hk : cfg.footerKeywords = none ∨ cfg.footerKeywords = some []) :
    cfgFooterKeywords (some cfg) = DEFAULT_FOOTER_KEYWORDS := by
  rcases hk with hk | hk <;> simp [cfgFooterKeywords, hk]

/-- C10: an absent or explicitly empty footerKeywords list makes the pipeline
substitute the seven built-in default footer keywords (the whole result is as
if the defaults had been configured), parseCsvConfig likewise maps an empty
footerKeywords array to the default list, and only the removeFooterKeywordRows
toggle disables footer-keyword removal: with the toggle off the keyword list
is never consulted. -/
theorem footerKeywords_default_spec (env : JsEnv)
    (raw : List (List String)) (opts : CleanCsvOptions) :
    DEFAULT_FOOTER_KEYWORDS.length = 7 ∧
    (∀ cfg : CsvConfig,
      (cfg.footerKeywords = none ∨ cfg.footerKeywords = some []) →
      cfgFooterKeywords (some cfg) = DEFAULT_FOOTER_KEYWORDS ∧
      cleanCsvRows env raw
          { eventTimeFilter := opts.eventTimeFilter, csvConfig := some cfg }
        = cleanCsvRows env raw
          { eventTimeFilter := opts.eventTimeFilter,
            csvConfig := some
              { cfg with footerKeywords := some DEFAULT_FOOTER_KEYWORDS } }) ∧
    (∀ fs : List (String × Json),
      jget fs "footerKeywords" = some (Json.arr []) →
      (parseCsvConfig (Json.obj fs)).footerKeywords
        = some DEFAULT_FOOTER_KEYWORDS) ∧
    (asStringArray (some (Json.arr [])) = none) ∧
    (∀ (P : StructParams) (kws : List String),
      P.removeFooterKeywordRows = false →
      ∀ (rows : List (List String)) (i : Nat),
        structuralSplit P i rows
          = structuralSplit { P with footerKeywords := kws } i rows) := by
  refine ⟨rfl, ?_, ?_, rfl, structuralSplit_footer_toggle_off⟩
  · intro cfg hk
    have hfk : cfgFooterKeywords (some cfg) = DEFAULT_FOOTER_KEYWORDS :=
      cfgFooterKeywords_default cfg hk
    refine ⟨hfk, ?_⟩
    have hfk2 : cfgFooterKeywords
        (some { cfg with footerKeywords := some DEFAULT_FOOTER_KEYWORDS })
        = DEFAULT_FOOTER_KEYWORDS := by
      simp [cfgFooterKeywords, DEFAULT_FOOTER_KEYWORDS]
    have hsp : ∀ h : Nat,
        structParamsOf ⟨opts.eventTimeFilter, some cfg⟩ raw h
        = structParamsOf ⟨opts.eventTimeFilter,
            some { cfg with footerKeywords := some DEFAULT_FOOTER_KEYWORDS }⟩
            raw h := by
      intro h
      unfold structParamsOf
      dsimp only
      rw [hfk, hfk2]
      rfl
    cases hh : findHeaderIndex raw with
    | none =>
      rw [cleanCsvRows_none_eq env raw _ hh, cleanCsvRows_none_eq env raw _ hh]
    | some h =>
      rw [cleanCsvRows_some_eq env raw _ h hh,
        cleanCsvRows_some_eq env raw _ h hh]
      unfold trOf crOf spOf
      rw [hsp h]
      rfl
  · intro fs hjget
    simp [parseCsvConfig, hjget, asStringArray, orDefault, DEFAULT_CSV_CONFIG]

theorem footerKeywords_default_spec_witness :
    cfgFooterKeywords (some cfgEmptyFooter) = DEFAULT_FOOTER_KEYWORDS ∧
    cfgEmptyFooter.footerKeywords = some [] :=
  ⟨((footerKeywords_default_spec trivEnv []
      { eventTimeFilter := none, csvConfig := none }).2.1 cfgEmptyFooter
      (Or.inr rfl)).1, rfl⟩

theorem structuralSplitT_erase (P : StructParams) :
    ∀ (rows : List (List String)) (i : Nat),
      (structuralSplitT P i rows).1.map Prod.snd
        = (structuralSplit P i rows).1 ∧
      (structuralSplitT P i rows).2.map Prod.snd
        = (structuralSplit P i rows).2 := by
  intro rows
  induction rows with
  | nil => intro i; exact ⟨rfl, rfl⟩
  | cons row rest ih =>
    intro i
    obtain ⟨ih1, ih2⟩ := ih (i + 1)
    simp only [structuralSplit, structuralSplitT]
    by_cases h1 : (P.removeEmptyRows && rowIsEmpty row) = true
    · simp only [if_pos h1]
      exact ⟨ih1, ih2⟩
    · simp only [if_neg h1]
      by_cases h2 : (i == P.headerIndex) = true
      · simp only [if_pos h2, List.map_cons]
        exact ⟨by rw [ih1], ih2⟩
      · simp only [if_neg h2]
        by_cases h3 : (P.removeDuplicateHeaderRows &&
            sameRow (padRow row P.tableLen) P.headerNorm) = true
        · simp only [if_pos h3, List.map_cons]
          exact ⟨ih1, by rw [ih2]⟩
        · simp only [if_neg h3]
          by_cases h4 : (P.removeFooterKeywordRows &&
              hitFooterKeywords (padRow row P.tableLen) P.footerKeywords) = true
          · simp only [if_pos h4, List.map_cons]
            exact ⟨ih1, by rw [ih2]⟩
          · simp only [if_neg h4, List.map_cons]
            exact ⟨by rw [ih1], ih2⟩

theorem structuralSplitT_snd_tag_ne (P : StructParams) :
    ∀ (rows : List (List String)) (i : Nat),
      ∀ p ∈ (structuralSplitT P i rows).2, ¬(p.1 = P.headerIndex) := by
  intro rows
  induction rows with
  | nil => intro i p hp; cases hp
  | cons row rest ih =>
    intro i p hp
    simp only [structuralSplitT] at hp
    by_cases h1 : (P.removeEmptyRows && rowIsEmpty row) = true
    · rw [if_pos h1] at hp
      exact ih (i + 1) p hp
    · rw [if_neg h1] at hp
      by_cases h2 : (i == P.headerIndex) = true
      · rw [if_pos h2] at hp
        exact ih (i + 1) p hp
      · rw [if_neg h2] at hp
        have hne : ¬(i = P.headerIndex) := by
          intro hcontra
          exact h2 (by rw [hcontra]; exact beq_self_eq_true _)
        by_cases h3 : (P.removeDuplicateHeaderRows &&
            sameRow (padRow row P.tableLen) P.headerNorm) = true
        · rw [if_pos h3] at hp
          rcases List.mem_cons.mp hp with rfl | hp
          · exact hne
          · exact ih (i + 1) p hp
        · rw [if_neg h3] at hp
          by_cases h4 : (P.removeFooterKeywordRows &&
              hitFooterKeywords (padRow row P.tableLen) P.footerKeywords) = true
          · rw [if_pos h4] at hp
            rcases List.mem_cons.mp hp with rfl | hp
            · exact hne
            · exact ih (i + 1) p hp
          · rw [if_neg h4] at hp
            exact ih (i + 1) p hp

theorem structuralSplitT_tags_ge (P : StructParams) :
    ∀ (rows : List (List String)) (i : Nat),
      (∀ p ∈ (structuralSplitT P i rows).1, i ≤ p.1) ∧
      (∀ p ∈ (structuralSplitT P i rows).2, i ≤ p.1) := by
  intro rows
  induction rows with
  | nil => intro i; exact ⟨fun p hp => absurd hp (List.not_mem_nil p),
      fun p hp => absurd hp (List.not_mem_nil p)⟩
  | cons row rest ih =>
    intro i
    obtain ⟨ih1, ih2⟩ := ih (i + 1)
    have hstep : ∀ p : Nat × List String, i + 1 ≤ p.1 → i ≤ p.1 :=
      fun p hp => Nat.le_of_succ_le hp
    constructor <;> intro p hp <;> simp only [structuralSplitT] at hp
    · by_cases h1 : (P.removeEmptyRows && rowIsEmpty row) = true
      · rw [if_pos h1] at hp
        exact hstep p (ih1 p hp)
      · rw [if_neg h1] at hp
        by_cases h2 : (i == P.headerIndex) = true
        · rw [if_pos h2] at hp
          rcases List.mem_cons.mp hp with rfl | hp
          · exact Nat.le_refl i
          · exact hstep p (ih1 p hp)
        · rw [if_neg h2] at hp
          by_cases h3 : (P.removeDuplicateHeaderRows &&
              sameRow (padRow row P.tableLen) P.headerNorm) = true
          · rw [if_pos h3] at hp
            exact hstep p (ih1 p hp)
          · rw [if_neg h3] at hp
            by_cases h4 : (P.removeFooterKeywordRows &&
                hitFooterKeywords (padRow row P.tableLen) P.footerKeywords) = true
            · rw [if_pos h4] at hp
              exact hstep p (ih1 p hp)
            · rw [if_neg h4] at hp
              rcases List.mem_cons.mp hp with rfl | hp
              · exact Nat.le_refl i
              · exact hstep p (ih1 p hp)
    · by_cases h1 : (P.removeEmptyRows && rowIsEmpty row) = true
      · rw [if_pos h1] at hp
        exact hstep p (ih2 p hp)
      · rw [if_neg h1] at hp
        by_cases h2 : (i == P.headerIndex) = true
        · rw [if_pos h2] at hp
          exact hstep p (ih2 p hp)
        · rw [if_neg h2] at hp
          by_cases h3 : (P.removeDuplicateHeaderRows &&
              sameRow (padRow row P.tableLen) P.headerNorm) = true
          · rw [if_pos h3] at hp
            rcases List.mem_cons.mp hp with rfl | hp
            · exact Nat.le_refl i
            · exact hstep p (ih2 p hp)
          · rw [if_neg h3] at hp
            by_cases h4 : (P.removeFooterKeywordRows &&
                hitFooterKeywords (padRow row P.tableLen) P.footerKeywords) = true
            · rw [if_pos h4] at hp
              rcases List.mem_cons.mp hp with rfl | hp
              · exact Nat.le_refl i
              · exact hstep p (ih2 p hp)
            · rw [if_neg h4] at hp
              exact hstep p (ih2 p hp)

theorem findHeaderIndex_decompose (rawRows : List (List String)) (h : Nat)
    (hh : findHeaderIndex rawRows = some h) :
    h < rawRows.length ∧ rowIsEmpty (rawRows.getD h []) = false ∧
    (∀ k, k < h → rowIsEmpty (rawRows.getD k []) = true) ∧
    rawRows = rawRows.take h ++ (rawRows.getD h []) :: rawRows.drop (h + 1) := by
  unfold findHeaderIndex at hh
  rw [List.findIdx?_eq_some_iff_getElem] at hh
  obtain ⟨hlt, hp, hprev⟩ := hh
  have hget : ∀ k (hk : k < rawRows.length), rawRows.getD k [] = rawRows[k] := by
    intro k hk
    rw [List.getD_eq_getElem?_getD, List.getElem?_eq_getElem hk]
    rfl
  refine ⟨hlt, ?_, ?_, ?_⟩
  · rw [hget h hlt]
    simp only [Bool.not_eq_true'] at hp
    exact hp
  · intro k hk
    have h2 := hprev k hk
    rw [hget k (Nat.lt_trans hk hlt)]
    cases hre : rowIsEmpty rawRows[k] with
    | true => rfl
    | false =>
      rw [hre] at h2
      exact absurd rfl h2
  · conv_lhs => rw [← List.take_append_drop h rawRows]
    rw [List.drop_eq_getElem_cons hlt, hget h hlt]

theorem structuralSplitT_header_head (P : StructParams)
    (hdrRaw : List String) (hhdr : rowIsEmpty hdrRaw = false) :
    ∀ (pre : List (List String)) (rest : List (List String)) (i : Nat),
    (∀ r ∈ pre, rowIsEmpty r = true) →
    (P.removeEmptyRows = true ∨ pre = []) →
    i + pre.length = P.headerIndex →
    structuralSplitT P i (pre ++ hdrRaw :: rest)
      = ((P.headerIndex, normalizeOutputRow (padRow hdrRaw P.tableLen))
          :: (structuralSplitT P (P.headerIndex + 1) rest).1,
         (structuralSplitT P (P.headerIndex + 1) rest).2) := by
  intro pre
  induction pre with
  | nil =>
    intro rest i hblank hcase hidx
    simp only [List.length_nil, Nat.add_zero] at hidx
    subst hidx
    simp only [List.nil_append, structuralSplitT]
    rw [if_neg (by rw [hhdr]; simp), if_pos (beq_self_eq_true _)]
  | cons b pre ih =>
    intro rest i hblank hcase hidx
    have hre : P.removeEmptyRows = true := by
      rcases hcase with hre | hnil
      · exact hre
      · cases hnil
    simp only [List.cons_append, structuralSplitT]
    rw [if_pos (by rw [hre, hblank b (List.mem_cons_self _ _)]; rfl)]
    apply ih rest (i + 1)
      (fun r hr => hblank r (List.mem_cons_of_mem _ hr)) (Or.inl hre)
    simp only [List.length_cons] at hidx
    omega

theorem customSplitT_eq (preds : List CompiledRemoveRule)
    (rows : List (Nat × List String)) :
    customSplitT preds rows =
      (rows.filter (fun row => !(preds.any (fun c => c.test row.2))),
       rows.filter (fun row => preds.any (fun c => c.test row.2))) := by
  induction rows with
  | nil => rfl
  | cons r t ih =>
    by_cases h : (preds.any (fun c => c.test r.2)) = true <;>
      simp [customSplitT, ih, List.filter_cons, h]

theorem temporalSplitT_eq (env : JsEnv) (mode : EventTimeFilterMode)
    (startMs endMs : Option Int) (idx : Nat)
    (rows : List (Nat × List String)) :
    temporalSplitT env mode startMs endMs idx rows =
      (rows.filter (fun row =>
        !(temporalRemoves env mode startMs endMs idx row.2)),
       rows.filter (fun row =>
        temporalRemoves env mode startMs endMs idx row.2)) := by
  induction rows with
  | nil => rfl
  | cons r t ih =>
    by_cases h : (temporalRemoves env mode startMs endMs idx r.2) = true <;>
      simp [temporalSplitT, ih, List.filter_cons, h]

theorem customSplitT_erase (preds : List CompiledRemoveRule) :
    ∀ rows : List (Nat × List String),
      (customSplitT preds rows).1.map Prod.snd
        = (customSplit preds (rows.map Prod.snd)).1 ∧
      (customSplitT preds rows).2.map Prod.snd
        = (customSplit preds (rows.map Prod.snd)).2 := by
  intro rows
  rw [customSplitT_eq, customSplit_eq]
  refine ⟨?_, ?_⟩ <;>
  · dsimp only
    rw [List.filter_map]
    rfl

theorem temporalSplitT_erase (env : JsEnv) (mode : EventTimeFilterMode)
    (startMs endMs : Option Int) (idx : Nat) :
    ∀ rows : List (Nat × List String),
      (temporalSplitT env mode startMs endMs idx rows).1.map Prod.snd
        = (temporalSplit env mode startMs endMs idx (rows.map Prod.snd)).1 ∧
      (temporalSplitT env mode startMs endMs idx rows).2.map Prod.snd
        = (temporalSplit env mode startMs endMs idx (rows.map Prod.snd)).2 := by
  intro rows
  rw [temporalSplitT_eq, temporalSplit_eq]
  refine ⟨?_, ?_⟩ <;>
  · dsimp only
    rw [List.filter_map]
    rfl

theorem cleanCsvRowsT_some_eq (env : JsEnv) (rawRows : List (List String))
    (opts : CleanCsvOptions) (h : Nat)
    (hh : findHeaderIndex rawRows = some h) :
    cleanCsvRowsT env rawRows opts =
      ⟨(trTOf env rawRows opts h).1, (spTOf rawRows opts h).2,
       (crTOf env rawRows opts h).2, (trTOf env rawRows opts h).2⟩ := by
  unfold cleanCsvRowsT
  rw [hh]
  rfl

theorem customResultT_erase (env : JsEnv)
    (rules : Option (List CsvRemoveRule))
    (baseT : List (Nat × List String)) :
    (customResultT env rules baseT).1.map Prod.snd
      = (customResult env rules (baseT.map Prod.snd)).1 ∧
    (customResultT env rules baseT).2.map Prod.snd
      = (customResult env rules (baseT.map Prod.snd)).2 := by
  unfold customResultT customResult
  by_cases hg : 1 < baseT.length ∧ rules.getD [] ≠ []
  · rw [if_pos hg, if_pos (by rw [List.length_map]; exact hg)]
    cases baseT with
    | nil => exact ⟨rfl, rfl⟩
    | cons hd dataT =>
      dsimp only [List.map_cons]
      by_cases hcmp : (compileRemoveRules env hd.2 rules).isEmpty = true
      · rw [if_pos hcmp, if_pos hcmp]
        exact ⟨rfl, rfl⟩
      · rw [if_neg hcmp, if_neg hcmp]
        obtain ⟨he1, he2⟩ :=
          customSplitT_erase (compileRemoveRules env hd.2 rules) dataT
        exact ⟨by dsimp only; rw [List.map_cons, he1], he2⟩
  · rw [if_neg hg, if_neg (by rw [List.length_map]; exact hg)]
    exact ⟨rfl, rfl⟩

theorem temporalResultT_erase (env : JsEnv) (otf : Option EventTimeFilter)
    (names : List String) (afterT : List (Nat × List String)) :
    (temporalResultT env otf names afterT).1.map Prod.snd
      = (temporalResult env otf names (afterT.map Prod.snd)).1 ∧
    (temporalResultT env otf names afterT).2.map Prod.snd
      = (temporalResult env otf names (afterT.map Prod.snd)).2 := by
  unfold temporalResultT temporalResult
  cases otf with
  | none => exact ⟨rfl, rfl⟩
  | some tf =>
    dsimp only
    by_cases hg : tf.enabled = true ∧ 1 < afterT.length
    · rw [if_pos hg, if_pos (by rw [List.length_map]; exact hg)]
      cases afterT with
      | nil => exact ⟨rfl, rfl⟩
      | cons hd dataT =>
        dsimp only [List.map_cons]
        cases hidx : findEventTimeColIndex hd.2 names with
        | none => exact ⟨rfl, rfl⟩
        | some idx =>
          obtain ⟨he1, he2⟩ := temporalSplitT_erase env tf.mode
            (startMsOf env tf) (endMsOf env tf) idx dataT
          constructor
          · show (hd :: (temporalSplitT env tf.mode (startMsOf env tf)
                (endMsOf env tf) idx dataT).1).map Prod.snd
              = hd.2 :: (temporalSplit env tf.mode (startMsOf env tf)
                (endMsOf env tf) idx (dataT.map Prod.snd)).1
            rw [List.map_cons, he1]
          · exact he2
    · rw [if_neg hg, if_neg (by rw [List.length_map]; exact hg)]
      exact ⟨rfl, rfl⟩

theorem customResultT_head (env : JsEnv) (rules : Option (List CsvRemoveRule))
    (hd : Nat × List String) (dataT : List (Nat × List String)) :
    ∃ keptT, (customResultT env rules (hd :: dataT)).1 = hd :: keptT ∧
      (∀ p ∈ keptT, p ∈ dataT) ∧
      (∀ p ∈ (customResultT env rules (hd :: dataT)).2, p ∈ dataT) := by
  unfold customResultT
  by_cases hg : 1 < (hd :: dataT).length ∧ rules.getD [] ≠ []
  · rw [if_pos hg]
    dsimp only
    by_cases hcmp : (compileRemoveRules env hd.2 rules).isEmpty = true
    · rw [if_pos hcmp]
      exact ⟨dataT, rfl, fun p hp => hp,
        fun p hp => absurd hp (List.not_mem_nil p)⟩
    · rw [if_neg hcmp]
      rw [customSplitT_eq]
      refine ⟨_, rfl, ?_, ?_⟩
      · intro p hp
        exact List.mem_of_mem_filter hp
      · intro p hp
        exact List.mem_of_mem_filter hp
  · rw [if_neg hg]
    exact ⟨dataT, rfl, fun p hp => hp,
      fun p hp => absurd hp (List.not_mem_nil p)⟩

theorem temporalResultT_head (env : JsEnv) (otf : Option EventTimeFilter)
    (names : List String) (hd : Nat × List String)
    (dataT : List (Nat × List String)) :
    ∃ keptT, (temporalResultT env otf names (hd :: dataT)).1 = hd :: keptT ∧
      (∀ p ∈ keptT, p ∈ dataT) ∧
      (∀ p ∈ (temporalResultT env otf names (hd :: dataT)).2, p ∈ dataT) := by
  unfold temporalResultT
  cases otf with
  | none => exact ⟨dataT, rfl, fun p hp => hp,
      fun p hp => absurd hp (List.not_mem_nil p)⟩
  | some tf =>
    dsimp only
    by_cases hg : tf.enabled = true ∧ 1 < (hd :: dataT).length
    · rw [if_pos hg]
      cases hidx : findEventTimeColIndex hd.2 names with
      | none =>
        exact ⟨dataT, rfl, fun p hp => hp,
          fun p hp => absurd hp (List.not_mem_nil p)⟩
      | some idx =>
        refine ⟨(temporalSplitT env tf.mode (startMsOf env tf)
            (endMsOf env tf) idx dataT).1, rfl, ?_, ?_⟩
        · intro p hp
          rw [temporalSplitT_eq] at hp
          exact List.mem_of_mem_filter hp
        · intro p hp
          have hp2 : p ∈ (temporalSplitT env tf.mode (startMsOf env tf)
              (endMsOf env tf) idx dataT).2 := hp
          rw [temporalSplitT_eq] at hp2
          exact List.mem_of_mem_filter hp2
    · rw [if_neg hg]
      exact ⟨dataT, rfl, fun p hp => hp,
        fun p hp => absurd hp (List.not_mem_nil p)⟩

/-- C2 counterexample: with blank-row removal disabled and a blank row before
the header, the custom-rule stage treats the blank row at position 0 as the
header; the true header row (raw row 1, processed to ["X"]) is tested by the
wildcard keyword rule and lands in the custom-removed bucket, and the kept
rows do not contain it. -/
theorem cleanCsvRows_header_claim_counterexample :
    findHeaderIndex [[""], ["X"]] = some 1 ∧
    normalizeOutputRow (padRow (([[""], ["X"]] : List (List String)).getD 1 [])
      (tableLenOf [[""], ["X"]] 1)) = ["X"] ∧
    (cleanCsvRows trivEnv [[""], ["X"]]
      { eventTimeFilter := none,
        csvConfig := some cfgNoBlankRemoval }).removedByCustomRows
      = [["X"]] ∧
    (cleanCsvRows trivEnv [[""], ["X"]]
      { eventTimeFilter := none,
        csvConfig := some cfgNoBlankRemoval }).rows = [[""]] := by
  refine ⟨by decide, by decide, by decide, by decide⟩

/-- C2 (amended): provided blank-row removal is enabled or the header is the
first input row, the header occurrence is never in any removal bucket and is
always the first kept row.  The index-tagged mirror cleanCsvRowsT erases to
cleanCsvRows component by component; in it the kept list starts with the
header position h carrying the processed header row, and every entry of the
structural, custom and temporal buckets carries a position different from h. -/
theorem cleanCsvRows_header_preserved (env : JsEnv)
    (rawRows : List (List String)) (opts : CleanCsvOptions) (h : Nat)
    (hh : findHeaderIndex rawRows = some h)
    (hc : cfgRemoveEmptyRows opts.csvConfig = true ∨ h = 0) :
    ((cleanCsvRowsT env rawRows opts).kept.map Prod.snd
      = (cleanCsvRows env rawRows opts).rows) ∧
    ((cleanCsvRowsT env rawRows opts).structuralRemoved.map Prod.snd
        ++ (cleanCsvRowsT env rawRows opts).customRemoved.map Prod.snd
        ++ (cleanCsvRowsT env rawRows opts).timeRemoved.map Prod.snd
      = (cleanCsvRows env rawRows opts).removedRows) ∧
    ((cleanCsvRowsT env rawRows opts).customRemoved.map Prod.snd
      = (cleanCsvRows env rawRows opts).removedByCustomRows) ∧
    ((cleanCsvRowsT env rawRows opts).timeRemoved.map Prod.snd
      = (cleanCsvRows env rawRows opts).removedByTimeRows) ∧
    ((cleanCsvRowsT env rawRows opts).kept.head?
      = some (h, normalizeOutputRow (padRow (rawRows.getD h [])
          (tableLenOf rawRows h)))) ∧
    ((cleanCsvRows env rawRows opts).rows.head?
      = some (normalizeOutputRow (padRow (rawRows.getD h [])
          (tableLenOf rawRows h)))) ∧
    (∀ p ∈ (cleanCsvRowsT env rawRows opts).structuralRemoved
        ++ (cleanCsvRowsT env rawRows opts).customRemoved
        ++ (cleanCsvRowsT env rawRows opts).timeRemoved, ¬(p.1 = h)) := by
  obtain ⟨hlt, hnb, hpre, hdecomp⟩ := findHeaderIndex_decompose rawRows h hh
  have hget : ∀ k (hk : k < rawRows.length), rawRows.getD k [] = rawRows[k] := by
    intro k hk
    rw [List.getD_eq_getElem?_getD, List.getElem?_eq_getElem hk]
    rfl
  -- erasure of the three stages
  have hspE := structuralSplitT_erase (structParamsOf opts rawRows h) rawRows 0
  have hspE1 : (spTOf rawRows opts h).1.map Prod.snd
      = (spOf rawRows opts h).1 := hspE.1
  have hspE2 : (spTOf rawRows opts h).2.map Prod.snd
      = (spOf rawRows opts h).2 := hspE.2
  have hcrE := customResultT_erase env
    (opts.csvConfig.bind (fun c => c.removeRules)) (spTOf rawRows opts h).1
  have hcrE1 : (crTOf env rawRows opts h).1.map Prod.snd
      = (crOf env rawRows opts h).1 := by
    have h2 := hcrE.1
    rw [hspE1] at h2
    exact h2
  have hcrE2 : (crTOf env rawRows opts h).2.map Prod.snd
      = (crOf env rawRows opts h).2 := by
    have h2 := hcrE.2
    rw [hspE1] at h2
    exact h2
  have htrE := temporalResultT_erase env opts.eventTimeFilter
    (cfgEventTimeNames opts.csvConfig) (crTOf env rawRows opts h).1
  have htrE1 : (trTOf env rawRows opts h).1.map Prod.snd
      = (trOf env rawRows opts h).1 := by
    have h2 := htrE.1
    rw [hcrE1] at h2
    exact h2
  have htrE2 : (trTOf env rawRows opts h).2.map Prod.snd
      = (trOf env rawRows opts h).2 := by
    have h2 := htrE.2
    rw [hcrE1] at h2
    exact h2
  -- the shape of the tagged structural stage
  have hprelist : ∀ r ∈ rawRows.take h, rowIsEmpty r = true := by
    intro r hr
    obtain ⟨j, hj, hjr⟩ := List.mem_iff_getElem.mp hr
    have hjh : j < h := by
      rw [List.length_take] at hj
      omega
    rw [List.getElem_take] at hjr
    have hblank := hpre j hjh
    rw [hget j (Nat.lt_trans hjh hlt)] at hblank
    rw [← hjr]
    exact hblank
  have hlenTake : 0 + (rawRows.take h).length
      = (structParamsOf opts rawRows h).headerIndex := by
    show 0 + (rawRows.take h).length = h
    rw [List.length_take]
    omega
  have hcase : (structParamsOf opts rawRows h).removeEmptyRows = true ∨
      rawRows.take h = [] := by
    rcases hc with hc | hc
    · exact Or.inl hc
    · right
      rw [hc]
      rfl
  have hsplitT := structuralSplitT_header_head (structParamsOf opts rawRows h)
    (rawRows.getD h []) hnb (rawRows.take h) (rawRows.drop (h + 1)) 0
    hprelist hcase hlenTake
  rw [← hdecomp] at hsplitT
  have hspT1 : (spTOf rawRows opts h).1
      = ((structParamsOf opts rawRows h).headerIndex,
          normalizeOutputRow (padRow (rawRows.getD h [])
            (structParamsOf opts rawRows h).tableLen))
        :: (structuralSplitT (structParamsOf opts rawRows h)
            ((structParamsOf opts rawRows h).headerIndex + 1)
            (rawRows.drop (h + 1))).1 :=
    congrArg Prod.fst hsplitT
  have htail1ge : ∀ p ∈ (structuralSplitT (structParamsOf opts rawRows h)
      ((structParamsOf opts rawRows h).headerIndex + 1)
      (rawRows.drop (h + 1))).1, ¬(p.1 = h) := by
    intro p hp hcontra
    have hge := (structuralSplitT_tags_ge (structParamsOf opts rawRows h)
      (rawRows.drop (h + 1))
      ((structParamsOf opts rawRows h).headerIndex + 1)).1 p hp
    have hhidx : (structParamsOf opts rawRows h).headerIndex = h := rfl
    rw [hhidx] at hge
    omega
  have hsptag : ∀ p ∈ (spTOf rawRows opts h).2, ¬(p.1 = h) :=
    structuralSplitT_snd_tag_ne (structParamsOf opts rawRows h) rawRows 0
  -- the custom stage keeps the tagged header in front
  have hcrTOf : crTOf env rawRows opts h
      = customResultT env (opts.csvConfig.bind (fun c => c.removeRules))
        (((structParamsOf opts rawRows h).headerIndex,
            normalizeOutputRow (padRow (rawRows.getD h [])
              (structParamsOf opts rawRows h).tableLen))
          :: (structuralSplitT (structParamsOf opts rawRows h)
              ((structParamsOf opts rawRows h).headerIndex + 1)
              (rawRows.drop (h + 1))).1) := by
    unfold crTOf
    rw [hspT1]
  obtain ⟨keptT1, hcr1, hcrsub, hcrbucket⟩ := customResultT_head env
    (opts.csvConfig.bind (fun c => c.removeRules))
    ((structParamsOf opts rawRows h).headerIndex,
      normalizeOutputRow (padRow (rawRows.getD h [])
        (structParamsOf opts rawRows h).tableLen))
    (structuralSplitT (structParamsOf opts rawRows h)
      ((structParamsOf opts rawRows h).headerIndex + 1)
      (rawRows.drop (h + 1))).1
  have hcrT1 : (crTOf env rawRows opts h).1
      = ((structParamsOf opts rawRows h).headerIndex,
          normalizeOutputRow (padRow (rawRows.getD h [])
            (structParamsOf opts rawRows h).tableLen)) :: keptT1 := by
    rw [hcrTOf]
    exact hcr1
  have hcrtag : ∀ p ∈ (crTOf env rawRows opts h).2, ¬(p.1 = h) := by
    intro p hp
    rw [hcrTOf] at hp
    exact htail1ge p (hcrbucket p hp)
  -- the temporal stage keeps the tagged header in front
  have htrTOf : trTOf env rawRows opts h
      = temporalResultT env opts.eventTimeFilter
        (cfgEventTimeNames opts.csvConfig)
        (((structParamsOf opts rawRows h).headerIndex,
            normalizeOutputRow (padRow (rawRows.getD h [])
              (structParamsOf opts rawRows h).tableLen)) :: keptT1) := by
    unfold trTOf
    rw [hcrT1]
  obtain ⟨keptT2, htr1, htrsub, htrbucket⟩ := temporalResultT_head env
    opts.eventTimeFilter (cfgEventTimeNames opts.csvConfig)
    ((structParamsOf opts rawRows h).headerIndex,
      normalizeOutputRow (padRow (rawRows.getD h [])
        (structParamsOf opts rawRows h).tableLen)) keptT1
  have htrT1 : (trTOf env rawRows opts h).1
      = ((structParamsOf opts rawRows h).headerIndex,
          normalizeOutputRow (padRow (rawRows.getD h [])
            (structParamsOf opts rawRows h).tableLen)) :: keptT2 := by
    rw [htrTOf]
    exact htr1
  have htrtag : ∀ p ∈ (trTOf env rawRows opts h).2, ¬(p.1 = h) := by
    intro p hp
    rw [htrTOf] at hp
    exact htail1ge p (hcrsub p (htrbucket p hp))
  -- assemble
  rw [cleanCsvRowsT_some_eq env rawRows opts h hh,
    cleanCsvRows_some_eq env rawRows opts h hh]
  refine ⟨htrE1, ?_, hcrE2, htrE2, ?_, ?_, ?_⟩
  · show (spTOf rawRows opts h).2.map Prod.snd
        ++ (crTOf env rawRows opts h).2.map Prod.snd
        ++ (trTOf env rawRows opts h).2.map Prod.snd
      = (spOf rawRows opts h).2 ++ (crOf env rawRows opts h).2
        ++ (trOf env rawRows opts h).2
    rw [hspE2, hcrE2, htrE2]
  · show (trTOf env rawRows opts h).1.head? = _
    rw [htrT1]
    rfl
  · show (trOf env rawRows opts h).1.head? = _
    rw [← htrE1, htrT1]
    rfl
  · intro p hp
    rcases List.mem_append.mp hp with hp1 | hp1
    · rcases List.mem_append.mp hp1 with hp2 | hp2
      · exact hsptag p hp2
      · exact hcrtag p hp2
    · exact htrtag p hp1

theorem cleanCsvRows_header_preserved_witness :
    findHeaderIndex [["hdr"], ["X"]] = some 0 ∧
    normalizeOutputRow (padRow (([["hdr"], ["X"]] : List (List String)).getD 0 [])
      (tableLenOf [["hdr"], ["X"]] 0)) = ["hdr"] ∧
    (cleanCsvRows trivEnv [["hdr"], ["X"]]
        { eventTimeFilter := none,
          csvConfig := some cfgNoBlankRemoval }).rows.head? = some ["hdr"] := by
  refine ⟨by decide, by decide, ?_⟩
  have hw := (cleanCsvRows_header_preserved trivEnv [["hdr"], ["X"]]
    { eventTimeFilter := none, csvConfig := some cfgNoBlankRemoval } 0
    (by decide) (Or.inr rfl)).2.2.2.2.2.1
  rw [hw]
  decide
/-! Monotonicity of the cleaning pipeline (C9).  The development relates the
run of cleanCsvRows under a configuration change to the unchanged run: each
structural toggle, rule-list extension and temporal-window narrowing is
propagated stage by stage through structuralSplit, customResult and
temporalResult. -/

theorem filter_length_mono {α : Type} (p q : α → Bool) (l : List α)
    (h : ∀ a, p a = true → q a = true) :
    (l.filter p).length ≤ (l.filter q).length :=
  (List.monotone_filter_right l (fun a ha => h a ha)).length_le

theorem matchTimeRange_mono (t s e s2 e2 : Option Int)
    (hs : startTighter s s2) (he : endTighter e e2)
    (h : matchTimeRange t s2 e2 = true) : matchTimeRange t s e = true := by
  cases t with
  | none => exact Bool.noConfusion h
  | some v =>
    unfold matchTimeRange at h ⊢
    rw [Bool.and_eq_true] at h ⊢
    obtain ⟨h1, h2⟩ := h
    constructor
    · cases hss : s with
      | none => rfl
      | some sv =>
        obtain ⟨s2v, hs2, hle⟩ := hs sv hss
        rw [hs2] at h1
        simp only [Bool.not_eq_true', decide_eq_false_iff_not] at h1
        simp only [Bool.not_eq_true', decide_eq_false_iff_not]
        omega
    · cases hee : e with
      | none => rfl
      | some ev =>
        obtain ⟨e2v, he2, hle⟩ := he ev hee
        rw [he2] at h2
        simp only [Bool.not_eq_true', decide_eq_false_iff_not] at h2
        simp only [Bool.not_eq_true', decide_eq_false_iff_not]
        omega

theorem temporalResult_cons_shape (env : JsEnv) (otf : Option EventTimeFilter)
    (names : List String) (c : List String) (t : List (List String)) :
    ∃ s, (temporalResult env otf names (c :: t)).1 = c :: s ∧
      List.Sublist s t := by
  unfold temporalResult
  cases otf with
  | none => exact ⟨t, rfl, List.Sublist.refl t⟩
  | some tf =>
    dsimp only
    by_cases hg : tf.enabled = true ∧ 1 < (c :: t).length
    · rw [if_pos hg]
      cases hidx : findEventTimeColIndex c names with
      | none => exact ⟨t, rfl, List.Sublist.refl t⟩
      | some j =>
        dsimp only
        rw [temporalSplit_eq]
        exact ⟨_, rfl, List.filter_sublist t⟩
    · rw [if_neg hg]
      exact ⟨t, rfl, List.Sublist.refl t⟩

theorem temporalResult_sub (env : JsEnv) (otf : Option EventTimeFilter)
    (names : List String) (c : List String) (t t' : List (List String))
    (hsub : List.Sublist t' t) :
    (temporalResult env otf names (c :: t')).1.length
      ≤ (temporalResult env otf names (c :: t)).1.length := by
  cases otf with
  | none =>
    simp only [temporalResult, List.length_cons]
    exact Nat.succ_le_succ hsub.length_le
  | some tf =>
    by_cases hg1 : tf.enabled = true ∧ 1 < (c :: t').length
    · have hg2 : tf.enabled = true ∧ 1 < (c :: t).length := by
        refine ⟨hg1.1, ?_⟩
        have hll := hsub.length_le
        have hg12 := hg1.2
        simp only [List.length_cons] at hg12 ⊢
        omega
      unfold temporalResult
      dsimp only
      rw [if_pos hg1, if_pos hg2]
      cases hidx : findEventTimeColIndex c names with
      | none =>
        dsimp only
        simp only [List.length_cons]
        exact Nat.succ_le_succ hsub.length_le
      | some j =>
        dsimp only
        rw [temporalSplit_eq, temporalSplit_eq]
        simp only [List.length_cons]
        exact Nat.succ_le_succ (hsub.filter _).length_le
    · obtain ⟨s2, hs2, hsub2⟩ := temporalResult_cons_shape env (some tf) names c t
      have hge1 : 1 ≤ (temporalResult env (some tf) names (c :: t)).1.length := by
        rw [hs2]
        simp
      have hL : (temporalResult env (some tf) names (c :: t')).1 = c :: t' := by
        unfold temporalResult
        dsimp only
        rw [if_neg hg1]
      rw [hL]
      by_cases hen : tf.enabled = true
      · have ht' : t' = [] := by
          cases t' with
          | nil => rfl
          | cons a b =>
            exfalso
            apply hg1
            refine ⟨hen, ?_⟩
            simp only [List.length_cons]
            omega
        subst ht'
        simpa using hge1
      · have hR : (temporalResult env (some tf) names (c :: t)).1 = c :: t := by
          unfold temporalResult
          dsimp only
          rw [if_neg (show ¬(tf.enabled = true ∧ 1 < (c :: t).length) from
            fun hcon => hen hcon.1)]
        rw [hR]
        simp only [List.length_cons]
        exact Nat.succ_le_succ hsub.length_le

theorem customResult_cons_shape (env : JsEnv)
    (rules : Option (List CsvRemoveRule)) (c : List String)
    (t : List (List String)) :
    ∃ s, (customResult env rules (c :: t)).1 = c :: s ∧ List.Sublist s t := by
  unfold customResult
  by_cases hg : 1 < (c :: t).length ∧ rules.getD [] ≠ []
  · rw [if_pos hg]
    dsimp only
    by_cases hc : (compileRemoveRules env c rules).isEmpty = true
    · rw [if_pos hc]
      exact ⟨t, rfl, List.Sublist.refl t⟩
    · rw [if_neg hc]
      dsimp only
      rw [customSplit_eq]
      exact ⟨_, rfl, List.filter_sublist t⟩
  · rw [if_neg hg]
    exact ⟨t, rfl, List.Sublist.refl t⟩

theorem downstream_sub (env : JsEnv) (rules : Option (List CsvRemoveRule))
    (otf : Option EventTimeFilter) (names : List String) (c : List String)
    (t t' : List (List String)) (hsub : List.Sublist t' t) :
    (temporalResult env otf names (customResult env rules (c :: t')).1).1.length
      ≤ (temporalResult env otf names
          (customResult env rules (c :: t)).1).1.length := by
  by_cases hr : rules.getD [] = []
  · have hL : (customResult env rules (c :: t')).1 = c :: t' := by
      unfold customResult
      rw [if_neg (show ¬(1 < (c :: t').length ∧ rules.getD [] ≠ []) from
        fun hcon => hcon.2 hr)]
    have hR : (customResult env rules (c :: t)).1 = c :: t := by
      unfold customResult
      rw [if_neg (show ¬(1 < (c :: t).length ∧ rules.getD [] ≠ []) from
        fun hcon => hcon.2 hr)]
    rw [hL, hR]
    exact temporalResult_sub env otf names c t t' hsub
  · by_cases h1 : 1 < (c :: t').length
    · have h2 : 1 < (c :: t).length := by
        have hll := hsub.length_le
        simp only [List.length_cons] at h1 ⊢
        omega
      unfold customResult
      rw [if_pos (⟨h1, hr⟩ : 1 < (c :: t').length ∧ rules.getD [] ≠ []),
        if_pos (⟨h2, hr⟩ : 1 < (c :: t).length ∧ rules.getD [] ≠ [])]
      dsimp only
      by_cases hc : (compileRemoveRules env c rules).isEmpty = true
      · rw [if_pos hc, if_pos hc]
        exact temporalResult_sub env otf names c t t' hsub
      · rw [if_neg hc, if_neg hc]
        dsimp only
        rw [customSplit_eq, customSplit_eq]
        exact temporalResult_sub env otf names c _ _ (hsub.filter _)
    · have ht' : t' = [] := by
        cases t' with
        | nil => rfl
        | cons a b =>
          exfalso
          apply h1
          simp only [List.length_cons]
          omega
      subst ht'
      have hL : (customResult env rules [c]).1 = [c] := by
        unfold customResult
        have hng : ¬(1 < ([c] : List (List String)).length ∧
            rules.getD [] ≠ []) := by
          intro hcon
          simp only [List.length_cons, List.length_nil] at hcon
          omega
        rw [if_neg hng]
      rw [hL]
      obtain ⟨s, hs, hsubs⟩ := customResult_cons_shape env rules c t
      rw [hs]
      exact temporalResult_sub env otf names c s [] (List.nil_sublist s)

theorem temporalRemoves_include (env : JsEnv) (s e : Option Int) (j : Nat)
    (row : List String) :
    temporalRemoves env EventTimeFilterMode.includeMatch s e j row
      = !(matchTimeRange (parseEventTimeMs env (row.getD j "")) s e) := rfl

theorem temporalResult_le (env : JsEnv) (otf : Option EventTimeFilter)
    (names : List String) (l : List (List String)) :
    (temporalResult env otf names l).1.length ≤ l.length := by
  have hp := temporalResult_partition env otf names l
  omega

theorem customResult_le (env : JsEnv) (rules : Option (List CsvRemoveRule))
    (l : List (List String)) :
    (customResult env rules l).1.length ≤ l.length := by
  have hp := customResult_partition env rules l
  omega

theorem temporalResult_window_mono (env : JsEnv) (names : List String)
    (tf tf2 : EventTimeFilter)
    (hmode : tf.mode = EventTimeFilterMode.includeMatch)
    (hmode2 : tf2.mode = EventTimeFilterMode.includeMatch)
    (hen : tf.enabled = tf2.enabled)
    (hs : startTighter (startMsOf env tf) (startMsOf env tf2))
    (he : endTighter (endMsOf env tf) (endMsOf env tf2))
    (l : List (List String)) :
    (temporalResult env (some tf2) names l).1.length
      ≤ (temporalResult env (some tf) names l).1.length := by
  unfold temporalResult
  dsimp only
  by_cases hg : tf2.enabled = true ∧ 1 < l.length
  · have hgl : tf.enabled = true ∧ 1 < l.length := ⟨by rw [hen]; exact hg.1, hg.2⟩
    rw [if_pos hg, if_pos hgl]
    cases l with
    | nil => exact Nat.le_refl _
    | cons c data =>
      dsimp only
      cases hidx : findEventTimeColIndex c names with
      | none => exact Nat.le_refl _
      | some j =>
        dsimp only
        rw [temporalSplit_eq, temporalSplit_eq]
        simp only [List.length_cons]
        apply Nat.succ_le_succ
        apply filter_length_mono
        intro row hrow
        rw [hmode2, temporalRemoves_include, Bool.not_not] at hrow
        rw [hmode, temporalRemoves_include, Bool.not_not]
        exact matchTimeRange_mono _ _ _ _ _ hs he hrow
  · have hg2 : ¬(tf.enabled = true ∧ 1 < l.length) := by
      intro hcon
      exact hg ⟨by rw [← hen]; exact hcon.1, hcon.2⟩
    rw [if_neg hg, if_neg hg2]

theorem findEventTimeColIndex_blank (row : List String) (names : List String)
    (hrow : rowIsEmpty row = true) :
    findEventTimeColIndex row names = none := by
  unfold findEventTimeColIndex
  rw [List.findIdx?_eq_none_iff]
  intro c hc
  rw [(rowIsEmpty_true_iff row).mp hrow c hc]
  by_cases hempty : ((names.map trimCell).filter (fun s => !(s == ""))).isEmpty
    = true
  · rw [if_pos hempty]
    apply contains_eq_false_of_not_mem
    intro hmem
    exact absurd ((List.mem_singleton).mp hmem) (by decide)
  · rw [if_neg hempty]
    apply contains_eq_false_of_not_mem
    intro hmem
    have hpred := List.of_mem_filter hmem
    simp only [beq_self_eq_true, Bool.not_true] at hpred
    exact Bool.noConfusion hpred

theorem temporalResult_blank_head (env : JsEnv) (otf : Option EventTimeFilter)
    (names : List String) (c : List String) (t : List (List String))
    (hc : rowIsEmpty c = true) :
    (temporalResult env otf names (c :: t)).1 = c :: t := by
  unfold temporalResult
  cases otf with
  | none => rfl
  | some tf =>
    dsimp only
    by_cases hg : tf.enabled = true ∧ 1 < (c :: t).length
    · rw [if_pos hg]
      rw [findEventTimeColIndex_blank c names hc]
    · rw [if_neg hg]

theorem structuralSplit_header_head (P : StructParams)
    (hdrRaw : List String) (hhdr : rowIsEmpty hdrRaw = false) :
    ∀ (pre rest : List (List String)) (i : Nat),
    (∀ r ∈ pre, rowIsEmpty r = true) →
    (P.removeEmptyRows = true ∨ pre = []) →
    i + pre.length = P.headerIndex →
    structuralSplit P i (pre ++ hdrRaw :: rest)
      = (normalizeOutputRow (padRow hdrRaw P.tableLen)
          :: (structuralSplit P (P.headerIndex + 1) rest).1,
         (structuralSplit P (P.headerIndex + 1) rest).2) := by
  intro pre
  induction pre with
  | nil =>
    intro rest i hblank hcase hidx
    simp only [List.length_nil, Nat.add_zero] at hidx
    subst hidx
    simp only [List.nil_append, structuralSplit]
    rw [if_neg (by rw [hhdr]; simp), if_pos (beq_self_eq_true _)]
  | cons b pre ih =>
    intro rest i hblank hcase hidx
    have hre : P.removeEmptyRows = true := by
      rcases hcase with hre | hnil
      · exact hre
      · cases hnil
    simp only [List.cons_append, structuralSplit]
    rw [if_pos (by rw [hre, hblank b (List.mem_cons_self _ _)]; rfl)]
    apply ih rest (i + 1)
      (fun r hr => hblank r (List.mem_cons_of_mem _ hr)) (Or.inl hre)
    simp only [List.length_cons] at hidx
    omega

theorem sameRow_blank_ne (row hn : List String) (len : Nat)
    (hb : rowIsEmpty row = true) (hhn : rowIsEmpty hn = false) :
    sameRow (padRow row len) hn = false := by
  cases hsrc : sameRow (padRow row len) hn with
  | false => rfl
  | true =>
    exfalso
    have heq := sameRow_rowIsEmpty _ _ hsrc
    rw [padRow_blank row len hb, hhn] at heq
    exact Bool.noConfusion heq

theorem structuralSplit_blank_step (P : StructParams) (row : List String)
    (rest : List (List String)) (i : Nat)
    (hb : rowIsEmpty row = true)
    (hoff : P.removeEmptyRows = false)
    (hne : ¬((i == P.headerIndex) = true))
    (hhn : rowIsEmpty P.headerNorm = false) :
    structuralSplit P i (row :: rest)
      = (normalizeOutputRow (padRow row P.tableLen)
          :: (structuralSplit P (i + 1) rest).1,
         (structuralSplit P (i + 1) rest).2) := by
  simp only [structuralSplit]
  rw [if_neg (by rw [hoff]; simp)]
  rw [if_neg hne]
  rw [if_neg (by rw [sameRow_blank_ne row P.headerNorm P.tableLen hb hhn]; simp)]
  rw [if_neg (by
    rw [hitFooterKeywords_blank _ _ (padRow_blank row P.tableLen hb)]; simp)]

theorem rowIsEmpty_replicate (n : Nat) :
    rowIsEmpty (List.replicate n "") = true := by
  rw [rowIsEmpty_true_iff]
  intro c hc
  rw [List.eq_of_mem_replicate hc]
  rfl

theorem structuralSplit_blank_toggle (P : StructParams)
    (hhn : rowIsEmpty P.headerNorm = false) :
    ∀ (rows : List (List String)), (∀ r ∈ rows, r.length ≤ P.tableLen) →
    ∀ i : Nat,
    (structuralSplit { P with removeEmptyRows := true } i rows).1
      = ((structuralSplit { P with removeEmptyRows := false } i rows).1.filter
          (fun r => !(rowIsEmpty r))) ∧
    (structuralSplit { P with removeEmptyRows := true } i rows).2
      = (structuralSplit { P with removeEmptyRows := false } i rows).2 := by
  intro rows
  induction rows with
  | nil => intro hlen i; exact ⟨rfl, rfl⟩
  | cons row rest ih =>
    intro hlen i
    obtain ⟨ih1, ih2⟩ := ih (fun r hr => hlen r (List.mem_cons_of_mem _ hr)) (i + 1)
    simp only [structuralSplit]
    simp only [Bool.true_and, Bool.false_and]
    by_cases hb : rowIsEmpty row = true
    · rw [if_pos hb, if_neg (Bool.false_ne_true)]
      have hpb : rowIsEmpty (normalizeOutputRow (padRow row P.tableLen)) = true := by
        rw [processed_blank_eq row P.tableLen hb]
        exact rowIsEmpty_replicate P.tableLen
      have hdrop : ¬((fun r => !(rowIsEmpty r))
          (normalizeOutputRow (padRow row P.tableLen)) = true) := by
        show ¬((!(rowIsEmpty (normalizeOutputRow (padRow row P.tableLen)))) = true)
        rw [hpb]
        decide
      by_cases h2 : (i == P.headerIndex) = true
      · rw [if_pos h2]
        refine ⟨?_, ih2⟩
        rw [@List.filter_cons_of_neg _ (fun r => !(rowIsEmpty r)) _ _ hdrop]
        exact ih1
      · rw [if_neg h2]
        rw [if_neg (show ¬((P.removeDuplicateHeaderRows &&
            sameRow (padRow row P.tableLen) P.headerNorm) = true) from by
          rw [sameRow_blank_ne row P.headerNorm P.tableLen hb hhn]
          simp)]
        rw [if_neg (show ¬((P.removeFooterKeywordRows &&
            hitFooterKeywords (padRow row P.tableLen) P.footerKeywords) = true) from by
          rw [hitFooterKeywords_blank _ _ (padRow_blank row P.tableLen hb)]
          simp)]
        refine ⟨?_, ih2⟩
        rw [@List.filter_cons_of_neg _ (fun r => !(rowIsEmpty r)) _ _ hdrop]
        exact ih1
    · have hbf : rowIsEmpty row = false := by
        cases hbv : rowIsEmpty row with
        | true => exact absurd hbv hb
        | false => rfl
      rw [if_neg hb, if_neg (Bool.false_ne_true)]
      have hpnb : rowIsEmpty (normalizeOutputRow (padRow row P.tableLen)) = false :=
        processed_nonblank row P.tableLen (hlen row (List.mem_cons_self _ _)) hbf
      have hkeep : ((fun r => !(rowIsEmpty r))
          (normalizeOutputRow (padRow row P.tableLen))) = true := by
        show (!(rowIsEmpty (normalizeOutputRow (padRow row P.tableLen)))) = true
        rw [hpnb]
        rfl
      by_cases h2 : (i == P.headerIndex) = true
      · rw [if_pos h2, if_pos h2]
        refine ⟨?_, ih2⟩
        rw [@List.filter_cons_of_pos _ (fun r => !(rowIsEmpty r)) _ _ hkeep, ih1]
      · rw [if_neg h2, if_neg h2]
        by_cases h3 : (P.removeDuplicateHeaderRows &&
            sameRow (padRow row P.tableLen) P.headerNorm) = true
        · rw [if_pos h3, if_pos h3]
          exact ⟨ih1, by rw [ih2]⟩
        · rw [if_neg h3, if_neg h3]
          by_cases h4 : (P.removeFooterKeywordRows &&
              hitFooterKeywords (padRow row P.tableLen) P.footerKeywords) = true
          · rw [if_pos h4, if_pos h4]
            exact ⟨ih1, by rw [ih2]⟩
          · rw [if_neg h4, if_neg h4]
            refine ⟨?_, ih2⟩
            rw [@List.filter_cons_of_pos _ (fun r => !(rowIsEmpty r)) _ _ hkeep, ih1]

theorem structuralSplit_dup_toggle (P : StructParams) :
    ∀ (rows : List (List String)) (i : Nat),
    List.Sublist
      (structuralSplit { P with removeDuplicateHeaderRows := true } i rows).1
      (structuralSplit { P with removeDuplicateHeaderRows := false } i rows).1 := by
  intro rows
  induction rows with
  | nil => intro i; exact List.Sublist.refl _
  | cons row rest ih =>
    intro i
    simp only [structuralSplit]
    simp only [Bool.true_and, Bool.false_and]
    by_cases h1 : (P.removeEmptyRows && rowIsEmpty row) = true
    · rw [if_pos h1, if_pos h1]
      exact ih (i + 1)
    · rw [if_neg h1, if_neg h1]
      by_cases h2 : (i == P.headerIndex) = true
      · rw [if_pos h2, if_pos h2]
        exact List.Sublist.cons₂ _ (ih (i + 1))
      · rw [if_neg h2, if_neg h2]
        by_cases h3 : sameRow (padRow row P.tableLen) P.headerNorm = true
        · rw [if_pos h3, if_neg (Bool.false_ne_true)]
          by_cases h4 : (P.removeFooterKeywordRows &&
              hitFooterKeywords (padRow row P.tableLen) P.footerKeywords) = true
          · rw [if_pos h4]
            exact ih (i + 1)
          · rw [if_neg h4]
            exact List.Sublist.cons _ (ih (i + 1))
        · rw [if_neg h3, if_neg (Bool.false_ne_true)]
          by_cases h4 : (P.removeFooterKeywordRows &&
              hitFooterKeywords (padRow row P.tableLen) P.footerKeywords) = true
          · rw [if_pos h4, if_pos h4]
            exact ih (i + 1)
          · rw [if_neg h4, if_neg h4]
            exact List.Sublist.cons₂ _ (ih (i + 1))

theorem structuralSplit_fkw_toggle (P : StructParams) :
    ∀ (rows : List (List String)) (i : Nat),
    List.Sublist
      (structuralSplit { P with removeFooterKeywordRows := true } i rows).1
      (structuralSplit { P with removeFooterKeywordRows := false } i rows).1 := by
  intro rows
  induction rows with
  | nil => intro i; exact List.Sublist.refl _
  | cons row rest ih =>
    intro i
    simp only [structuralSplit]
    simp only [Bool.true_and, Bool.false_and]
    by_cases h1 : (P.removeEmptyRows && rowIsEmpty row) = true
    · rw [if_pos h1, if_pos h1]
      exact ih (i + 1)
    · rw [if_neg h1, if_neg h1]
      by_cases h2 : (i == P.headerIndex) = true
      · rw [if_pos h2, if_pos h2]
        exact List.Sublist.cons₂ _ (ih (i + 1))
      · rw [if_neg h2, if_neg h2]
        by_cases h3 : (P.removeDuplicateHeaderRows &&
            sameRow (padRow row P.tableLen) P.headerNorm) = true
        · rw [if_pos h3, if_pos h3]
          exact ih (i + 1)
        · rw [if_neg h3, if_neg h3]
          by_cases h4 : hitFooterKeywords (padRow row P.tableLen)
              P.footerKeywords = true
          · rw [if_pos h4, if_neg (Bool.false_ne_true)]
            exact List.Sublist.cons _ (ih (i + 1))
          · rw [if_neg h4, if_neg (Bool.false_ne_true)]
            exact List.Sublist.cons₂ _ (ih (i + 1))

theorem structuralSplit_head_shape (P : StructParams)
    (rows : List (List String)) (h : Nat)
    (hfh : findHeaderIndex rows = some h) (hhi : P.headerIndex = h)
    (hhn : rowIsEmpty P.headerNorm = false) :
    ∃ t, (structuralSplit P 0 rows).1
      = (if P.removeEmptyRows = true
          then normalizeOutputRow (padRow (rows.getD h []) P.tableLen)
          else normalizeOutputRow (padRow (rows.getD 0 []) P.tableLen)) :: t := by
  obtain ⟨hlt, hnb, hpre, hdecomp⟩ := findHeaderIndex_decompose rows h hfh
  by_cases hre : P.removeEmptyRows = true
  · rw [if_pos hre]
    have hprelist : ∀ r ∈ rows.take h, rowIsEmpty r = true := by
      intro r hr
      obtain ⟨j, hj, hjr⟩ := List.mem_iff_getElem.mp hr
      have hjh : j < h := by
        rw [List.length_take] at hj
        omega
      rw [List.getElem_take] at hjr
      have hblank := hpre j hjh
      have hget : rows.getD j [] = rows[j] := by
        rw [List.getD_eq_getElem?_getD,
          List.getElem?_eq_getElem (Nat.lt_trans hjh hlt)]
        rfl
      rw [hget] at hblank
      rw [← hjr]
      exact hblank
    have hlenTake : 0 + (rows.take h).length = P.headerIndex := by
      rw [List.length_take, hhi]
      omega
    have hsplit := structuralSplit_header_head P (rows.getD h []) hnb
      (rows.take h) (rows.drop (h + 1)) 0 hprelist (Or.inl hre) hlenTake
    rw [← hdecomp] at hsplit
    exact ⟨_, congrArg Prod.fst hsplit⟩
  · rw [if_neg hre]
    have hre0 : P.removeEmptyRows = false := by
      cases hPv : P.removeEmptyRows with
      | true => exact absurd hPv hre
      | false => rfl
    by_cases hh0 : h = 0
    · subst hh0
      have hsplit := structuralSplit_header_head P (rows.getD 0 []) hnb
        [] (rows.drop (0 + 1)) 0 (fun r hr => absurd hr (List.not_mem_nil r))
        (Or.inr rfl) (by rw [hhi]; rfl)
      rw [List.nil_append] at hsplit
      have hd : rows = rows.getD 0 [] :: rows.drop (0 + 1) := by
        conv_lhs => rw [hdecomp]
        rw [List.take_zero, List.nil_append]
      rw [← hd] at hsplit
      exact ⟨_, congrArg Prod.fst hsplit⟩
    · have h0lt : 0 < rows.length := Nat.lt_of_le_of_lt (Nat.zero_le h) hlt
      have hd0 : rows = rows.getD 0 [] :: rows.drop 1 := by
        have hget0 : rows.getD 0 [] = rows[0] := by
          rw [List.getD_eq_getElem?_getD, List.getElem?_eq_getElem h0lt]
          rfl
        rw [hget0]
        conv_lhs => rw [← List.drop_zero rows]
        rw [List.drop_eq_getElem_cons h0lt]
      have hb0 : rowIsEmpty (rows.getD 0 []) = true :=
        hpre 0 (Nat.pos_of_ne_zero hh0)
      have hne0 : ¬((0 == P.headerIndex) = true) := by
        intro hc
        rw [beq_iff_eq, hhi] at hc
        exact hh0 hc.symm
      have hstep := structuralSplit_blank_step P (rows.getD 0 []) (rows.drop 1)
        0 hb0 hre0 hne0 hhn
      rw [← hd0] at hstep
      exact ⟨_, congrArg Prod.fst hstep⟩

theorem resolveColumnIndices_blank (row : List String) (col : ColumnSpec)
    (hb : rowIsEmpty row = true) :
    resolveColumnIndices row col = none ∨
    ∀ hdr : List String,
      resolveColumnIndices row col = resolveColumnIndices hdr col := by
  cases col with
  | star => exact Or.inr (fun hdr => rfl)
  | num n => exact Or.inr (fun hdr => rfl)
  | name c =>
    by_cases hc : (trimCell c == "") = true
    · right
      intro hdr
      unfold resolveColumnIndices
      dsimp only
      rw [if_pos hc, if_pos hc]
    · left
      unfold resolveColumnIndices
      dsimp only
      rw [if_neg hc]
      have hfind : row.findIdx? (fun hcell => trimCell hcell == trimCell c)
          = none := by
        rw [List.findIdx?_eq_none_iff]
        intro x hx
        rw [(rowIsEmpty_true_iff row).mp hb x hx]
        cases hbeq : ("" == trimCell c) with
        | false => rfl
        | true =>
          exfalso
          apply hc
          rw [beq_iff_eq] at hbeq
          rw [beq_iff_eq]
          exact hbeq.symm
      rw [hfind]
      have hhits : containHits row (trimCell c) = [] := by
        unfold containHits
        rw [List.map_eq_nil_iff, List.filter_eq_nil_iff]
        intro a ha hpred
        have hmem : a.2 ∈ row := by
          have hm := List.mem_map_of_mem Prod.snd ha
          rw [List.enum_map_snd] at hm
          exact hm
        have htr : trimCell a.2 = "" := (rowIsEmpty_true_iff row).mp hb a.2 hmem
        have hpred2 : (!(trimCell a.2 == "") &&
            (strContains (trimCell a.2) (trimCell c)
              || strContains (trimCell c) (trimCell a.2))) = true := hpred
        rw [htr] at hpred2
        simp at hpred2
      rw [hhits]
      rfl

theorem compileOne_blank (env : JsEnv) (row hdr : List String)
    (rule : CsvRemoveRule) (hb : rowIsEmpty row = true) :
    compileOne env row rule = none ∨
    compileOne env row rule = compileOne env hdr rule := by
  rcases resolveColumnIndices_blank row rule.column hb with hres | hres
  · by_cases hen : rule.enabled = some false
    · left
      unfold compileOne
      rw [if_pos hen]
    · left
      unfold compileOne
      rw [if_neg hen, hres]
  · right
    unfold compileOne
    rw [hres hdr]

theorem compileRemoveRules_blank_sub (env : JsEnv) (row hdr : List String)
    (rules : Option (List CsvRemoveRule)) (hb : rowIsEmpty row = true)
    (p : CompiledRemoveRule) (hp : p ∈ compileRemoveRules env row rules) :
    p ∈ compileRemoveRules env hdr rules := by
  cases rules with
  | none => cases hp
  | some rs =>
    simp only [compileRemoveRules] at hp ⊢
    obtain ⟨rule, hrule, hcomp⟩ := List.mem_filterMap.mp hp
    rcases compileOne_blank env row hdr rule hb with hnone | heq
    · rw [hnone] at hcomp
      exact Option.noConfusion hcomp
    · exact List.mem_filterMap.mpr ⟨rule, hrule, by rw [← heq]; exact hcomp⟩

theorem custom_blank_count_le (env : JsEnv) (rules : Option (List CsvRemoveRule))
    (c0 cH : List String) (tOff tOn : List (List String))
    (hb0 : rowIsEmpty c0 = true)
    (hrel : tOff.filter (fun r => !(rowIsEmpty r)) = cH :: tOn) :
    (customResult env rules (cH :: tOn)).1.length
      ≤ (customResult env rules (c0 :: tOff)).1.length := by
  have hsubOff : List.Sublist (cH :: tOn) tOff := by
    have hfs : List.Sublist (tOff.filter (fun r => !(rowIsEmpty r))) tOff :=
      List.filter_sublist tOff
    rw [hrel] at hfs
    exact hfs
  have hlenOnOff : (cH :: tOn).length ≤ tOff.length := hsubOff.length_le
  by_cases hr : rules.getD [] = []
  · have hL : (customResult env rules (cH :: tOn)).1 = cH :: tOn := by
      unfold customResult
      rw [if_neg (show ¬(1 < (cH :: tOn).length ∧ rules.getD [] ≠ []) from
        fun hcon => hcon.2 hr)]
    have hR : (customResult env rules (c0 :: tOff)).1 = c0 :: tOff := by
      unfold customResult
      rw [if_neg (show ¬(1 < (c0 :: tOff).length ∧ rules.getD [] ≠ []) from
        fun hcon => hcon.2 hr)]
    rw [hL, hR]
    have hlo := hlenOnOff
    simp only [List.length_cons] at hlo ⊢
    omega
  · by_cases h1 : 1 < (cH :: tOn).length
    · have h2 : 1 < (c0 :: tOff).length := by
        have hlo := hlenOnOff
        simp only [List.length_cons] at h1 hlo ⊢
        omega
      have hgL : 1 < (cH :: tOn).length ∧ rules.getD [] ≠ [] := ⟨h1, hr⟩
      have hgR : 1 < (c0 :: tOff).length ∧ rules.getD [] ≠ [] := ⟨h2, hr⟩
      by_cases hcoff : (compileRemoveRules env c0 rules).isEmpty = true
      · have hR : (customResult env rules (c0 :: tOff)).1 = c0 :: tOff := by
          unfold customResult
          rw [if_pos hgR]
          dsimp only
          rw [if_pos hcoff]
        rw [hR]
        calc (customResult env rules (cH :: tOn)).1.length
            ≤ (cH :: tOn).length := customResult_le env rules _
          _ ≤ tOff.length := hlenOnOff
          _ ≤ (c0 :: tOff).length := by
              simp only [List.length_cons]
              omega
      · obtain ⟨p0, hp0⟩ := List.exists_mem_of_ne_nil
          (compileRemoveRules env c0 rules)
          (by
            intro hcon
            rw [hcon] at hcoff
            exact hcoff rfl)
        have hponH := compileRemoveRules_blank_sub env c0 cH rules hb0 p0 hp0
        have hconH : ¬((compileRemoveRules env cH rules).isEmpty = true) := by
          intro hcon
          rw [List.isEmpty_iff] at hcon
          rw [hcon] at hponH
          cases hponH
        have hR : (customResult env rules (c0 :: tOff)).1
            = c0 :: tOff.filter (fun r2 =>
                !((compileRemoveRules env c0 rules).any (fun p => p.test r2))) := by
          unfold customResult
          rw [if_pos hgR]
          dsimp only
          rw [if_neg hcoff]
          dsimp only
          rw [customSplit_eq]
        have hL : (customResult env rules (cH :: tOn)).1
            = cH :: tOn.filter (fun r2 =>
                !((compileRemoveRules env cH rules).any (fun p => p.test r2))) := by
          unfold customResult
          rw [if_pos hgL]
          dsimp only
          rw [if_neg hconH]
          dsimp only
          rw [customSplit_eq]
        rw [hL, hR]
        simp only [List.length_cons]
        apply Nat.succ_le_succ
        have hpt : ∀ r2 : List String,
            (!((compileRemoveRules env cH rules).any (fun p => p.test r2))) = true →
            (!((compileRemoveRules env c0 rules).any (fun p => p.test r2))) = true := by
          intro r2 hnH
          cases hao : (compileRemoveRules env c0 rules).any (fun p => p.test r2) with
          | false => rfl
          | true =>
            exfalso
            rw [List.any_eq_true] at hao
            obtain ⟨p, hp, htest⟩ := hao
            have hpH := compileRemoveRules_blank_sub env c0 cH rules hb0 p hp
            have hanyH : (compileRemoveRules env cH rules).any
                (fun p => p.test r2) = true :=
              List.any_eq_true.mpr ⟨p, hpH, htest⟩
            rw [hanyH] at hnH
            exact Bool.noConfusion hnH
        have s1 : List.Sublist
            (tOn.filter (fun r2 =>
              !((compileRemoveRules env cH rules).any (fun p => p.test r2))))
            ((cH :: tOn).filter (fun r2 =>
              !((compileRemoveRules env cH rules).any (fun p => p.test r2)))) :=
          (List.sublist_cons_self cH tOn).filter _
        have s2 : List.Sublist
            ((cH :: tOn).filter (fun r2 =>
              !((compileRemoveRules env cH rules).any (fun p => p.test r2))))
            (tOff.filter (fun r2 =>
              !((compileRemoveRules env cH rules).any (fun p => p.test r2)))) := by
          rw [← hrel]
          exact (List.filter_sublist tOff).filter _
        have s3 : List.Sublist
            (tOff.filter (fun r2 =>
              !((compileRemoveRules env cH rules).any (fun p => p.test r2))))
            (tOff.filter (fun r2 =>
              !((compileRemoveRules env c0 rules).any (fun p => p.test r2)))) :=
          List.monotone_filter_right tOff (fun r2 hr2 => hpt r2 hr2)
        exact ((s1.trans s2).trans s3).length_le
    · have htOn : tOn = [] := by
        cases tOn with
        | nil => rfl
        | cons a b =>
          exfalso
          apply h1
          simp only [List.length_cons]
          omega
      subst htOn
      have hL : (customResult env rules [cH]).1 = [cH] := by
        unfold customResult
        rw [if_neg (show ¬(1 < ([cH] : List (List String)).length ∧
            rules.getD [] ≠ []) from by
          intro hcon
          simp only [List.length_cons, List.length_nil] at hcon
          omega)]
      rw [hL]
      obtain ⟨s, hs, hsubs⟩ := customResult_cons_shape env rules c0 tOff
      rw [hs]
      simp only [List.length_cons, List.length_nil]
      omega

theorem customResult_nil (env : JsEnv) (rules : Option (List CsvRemoveRule)) :
    (customResult env rules ([] : List (List String))).1 = [] := by
  unfold customResult
  rw [if_neg (show ¬(1 < ([] : List (List String)).length ∧
      rules.getD [] ≠ []) from by
    intro hcon
    have h1 := hcon.1
    simp only [List.length_nil] at h1
    omega)]

theorem temporalResult_nil (env : JsEnv) (otf : Option EventTimeFilter)
    (names : List String) :
    (temporalResult env otf names ([] : List (List String))).1 = [] := by
  unfold temporalResult
  cases otf with
  | none => rfl
  | some tf =>
    dsimp only
    rw [if_neg (show ¬(tf.enabled = true ∧
        1 < ([] : List (List String)).length) from by
      intro hcon
      have h2 := hcon.2
      simp only [List.length_nil] at h2
      omega)]

theorem pipeline_dup_le (env : JsEnv) (rules : Option (List CsvRemoveRule))
    (otf : Option EventTimeFilter) (names : List String) (P : StructParams)
    (raw : List (List String)) (h : Nat)
    (hfh : findHeaderIndex raw = some h) (hhi : P.headerIndex = h)
    (hhn : rowIsEmpty P.headerNorm = false) :
    (temporalResult env otf names (customResult env rules
      (structuralSplit { P with removeDuplicateHeaderRows := true } 0 raw).1).1).1.length
    ≤ (temporalResult env otf names (customResult env rules
      (structuralSplit { P with removeDuplicateHeaderRows := false } 0 raw).1).1).1.length := by
  have hsub := structuralSplit_dup_toggle P raw 0
  obtain ⟨tOn, hOn⟩ := structuralSplit_head_shape
    { P with removeDuplicateHeaderRows := true } raw h hfh hhi hhn
  obtain ⟨tOff, hOffRaw⟩ := structuralSplit_head_shape
    { P with removeDuplicateHeaderRows := false } raw h hfh hhi hhn
  have hOff : (structuralSplit { P with removeDuplicateHeaderRows := false }
      0 raw).1
      = (if ({ P with removeDuplicateHeaderRows := true }
            : StructParams).removeEmptyRows = true
         then normalizeOutputRow (padRow (raw.getD h [])
           ({ P with removeDuplicateHeaderRows := true } : StructParams).tableLen)
         else normalizeOutputRow (padRow (raw.getD 0 [])
           ({ P with removeDuplicateHeaderRows := true } : StructParams).tableLen))
        :: tOff := hOffRaw
  rw [hOn] at hsub
  rw [hOff] at hsub
  have hts := List.cons_sublist_cons.mp hsub
  rw [hOn, hOff]
  exact downstream_sub env rules otf names _ tOff tOn hts

theorem pipeline_fkw_le (env : JsEnv) (rules : Option (List CsvRemoveRule))
    (otf : Option EventTimeFilter) (names : List String) (P : StructParams)
    (raw : List (List String)) (h : Nat)
    (hfh : findHeaderIndex raw = some h) (hhi : P.headerIndex = h)
    (hhn : rowIsEmpty P.headerNorm = false) :
    (temporalResult env otf names (customResult env rules
      (structuralSplit { P with removeFooterKeywordRows := true } 0 raw).1).1).1.length
    ≤ (temporalResult env otf names (customResult env rules
      (structuralSplit { P with removeFooterKeywordRows := false } 0 raw).1).1).1.length := by
  have hsub := structuralSplit_fkw_toggle P raw 0
  obtain ⟨tOn, hOn⟩ := structuralSplit_head_shape
    { P with removeFooterKeywordRows := true } raw h hfh hhi hhn
  obtain ⟨tOff, hOffRaw⟩ := structuralSplit_head_shape
    { P with removeFooterKeywordRows := false } raw h hfh hhi hhn
  have hOff : (structuralSplit { P with removeFooterKeywordRows := false }
      0 raw).1
      = (if ({ P with removeFooterKeywordRows := true }
            : StructParams).removeEmptyRows = true
         then normalizeOutputRow (padRow (raw.getD h [])
           ({ P with removeFooterKeywordRows := true } : StructParams).tableLen)
         else normalizeOutputRow (padRow (raw.getD 0 [])
           ({ P with removeFooterKeywordRows := true } : StructParams).tableLen))
        :: tOff := hOffRaw
  rw [hOn] at hsub
  rw [hOff] at hsub
  have hts := List.cons_sublist_cons.mp hsub
  rw [hOn, hOff]
  exact downstream_sub env rules otf names _ tOff tOn hts

theorem pipeline_blank_le (env : JsEnv) (rules : Option (List CsvRemoveRule))
    (otf : Option EventTimeFilter) (names : List String) (P : StructParams)
    (raw : List (List String)) (h : Nat)
    (hfh : findHeaderIndex raw = some h) (hhi : P.headerIndex = h)
    (hhn : rowIsEmpty P.headerNorm = false)
    (hlen : ∀ r ∈ raw, r.length ≤ P.tableLen)
    (hpre : ∀ k, k < h → rowIsEmpty (raw.getD k []) = true)
    (hnb : rowIsEmpty (raw.getD h []) = false)
    (hhdrlen : (raw.getD h []).length ≤ P.tableLen) :
    (temporalResult env otf names (customResult env rules
      (structuralSplit { P with removeEmptyRows := true } 0 raw).1).1).1.length
    ≤ (temporalResult env otf names (customResult env rules
      (structuralSplit { P with removeEmptyRows := false } 0 raw).1).1).1.length := by
  obtain ⟨S1k, S1b⟩ := structuralSplit_blank_toggle P hhn raw hlen 0
  obtain ⟨tOff, hOffRaw⟩ := structuralSplit_head_shape
    { P with removeEmptyRows := false } raw h hfh hhi hhn
  have hOff : (structuralSplit { P with removeEmptyRows := false } 0 raw).1
      = normalizeOutputRow (padRow (raw.getD 0 []) P.tableLen) :: tOff := by
    rw [hOffRaw]
    rfl
  by_cases hh0 : h = 0
  · subst hh0
    have hpnb : rowIsEmpty (normalizeOutputRow (padRow (raw.getD 0 [])
        P.tableLen)) = false :=
      processed_nonblank _ _ hhdrlen hnb
    have hkeep : ((fun r => !(rowIsEmpty r))
        (normalizeOutputRow (padRow (raw.getD 0 []) P.tableLen))) = true := by
      show (!(rowIsEmpty (normalizeOutputRow (padRow (raw.getD 0 [])
        P.tableLen)))) = true
      rw [hpnb]
      rfl
    have hOn : (structuralSplit { P with removeEmptyRows := true } 0 raw).1
        = normalizeOutputRow (padRow (raw.getD 0 []) P.tableLen)
          :: tOff.filter (fun r => !(rowIsEmpty r)) := by
      rw [S1k, hOff,
        @List.filter_cons_of_pos _ (fun r => !(rowIsEmpty r)) _ _ hkeep]
    rw [hOn, hOff]
    exact downstream_sub env rules otf names _ tOff
      (tOff.filter (fun r => !(rowIsEmpty r))) (List.filter_sublist tOff)
  · have hb0 : rowIsEmpty (raw.getD 0 []) = true :=
      hpre 0 (Nat.pos_of_ne_zero hh0)
    have hpb0 : rowIsEmpty (normalizeOutputRow (padRow (raw.getD 0 [])
        P.tableLen)) = true := by
      rw [processed_blank_eq _ _ hb0]
      exact rowIsEmpty_replicate _
    have hdrop0 : ¬(((fun r => !(rowIsEmpty r))
        (normalizeOutputRow (padRow (raw.getD 0 []) P.tableLen))) = true) := by
      show ¬((!(rowIsEmpty (normalizeOutputRow (padRow (raw.getD 0 [])
        P.tableLen)))) = true)
      rw [hpb0]
      decide
    have hOn : (structuralSplit { P with removeEmptyRows := true } 0 raw).1
        = tOff.filter (fun r => !(rowIsEmpty r)) := by
      rw [S1k, hOff,
        @List.filter_cons_of_neg _ (fun r => !(rowIsEmpty r)) _ _ hdrop0]
    obtain ⟨sOff, hsOff, hsubsOff⟩ := customResult_cons_shape env rules
      (normalizeOutputRow (padRow (raw.getD 0 []) P.tableLen)) tOff
    have hnoopR : (temporalResult env otf names
        (customResult env rules (normalizeOutputRow (padRow (raw.getD 0 [])
          P.tableLen) :: tOff)).1).1
        = normalizeOutputRow (padRow (raw.getD 0 []) P.tableLen) :: sOff := by
      rw [hsOff]
      exact temporalResult_blank_head env otf names _ sOff hpb0
    rw [hOn, hOff]
    cases hfon : tOff.filter (fun r => !(rowIsEmpty r)) with
    | nil =>
      rw [customResult_nil, temporalResult_nil]
      simp only [List.length_nil]
      exact Nat.zero_le _
    | cons cOn tOn =>
      calc (temporalResult env otf names
            (customResult env rules (cOn :: tOn)).1).1.length
          ≤ (customResult env rules (cOn :: tOn)).1.length :=
            temporalResult_le env otf names _
        _ ≤ (customResult env rules (normalizeOutputRow (padRow (raw.getD 0 [])
              P.tableLen) :: tOff)).1.length :=
            custom_blank_count_le env rules _ cOn tOff tOn hpb0 hfon
        _ = (temporalResult env otf names (customResult env rules
              (normalizeOutputRow (padRow (raw.getD 0 [])
                P.tableLen) :: tOff)).1).1.length := by
            rw [hnoopR, hsOff]

theorem custom_append_count_le (env : JsEnv) (rs : List CsvRemoveRule)
    (r : CsvRemoveRule) (otf : Option EventTimeFilter) (names : List String)
    (c : List String) (t : List (List String)) :
    (temporalResult env otf names
      (customResult env (some (rs ++ [r])) (c :: t)).1).1.length
    ≤ (temporalResult env otf names
      (customResult env (some rs) (c :: t)).1).1.length := by
  have hgne : (some (rs ++ [r]) : Option (List CsvRemoveRule)).getD [] ≠ [] := by
    simp only [Option.getD_some]
    exact List.append_ne_nil_of_right_ne_nil rs (List.cons_ne_nil r [])
  by_cases h1 : 1 < (c :: t).length
  · by_cases hrs : rs = []
    · have hR : (customResult env (some rs) (c :: t)).1 = c :: t := by
        unfold customResult
        rw [if_neg (show ¬(1 < (c :: t).length ∧
            (some rs : Option (List CsvRemoveRule)).getD [] ≠ []) from by
          intro hcon
          exact hcon.2 (by rw [hrs]; rfl))]
      rw [hR]
      obtain ⟨s, hs, hsub⟩ := customResult_cons_shape env (some (rs ++ [r])) c t
      rw [hs]
      exact temporalResult_sub env otf names c t s hsub
    · have hgrs : (some rs : Option (List CsvRemoveRule)).getD [] ≠ [] := by
        simp only [Option.getD_some]
        exact hrs
      have hgL : 1 < (c :: t).length ∧
          (some (rs ++ [r]) : Option (List CsvRemoveRule)).getD [] ≠ [] :=
        ⟨h1, hgne⟩
      have hgR : 1 < (c :: t).length ∧
          (some rs : Option (List CsvRemoveRule)).getD [] ≠ [] := ⟨h1, hgrs⟩
      have hdec : compileRemoveRules env c (some (rs ++ [r]))
          = compileRemoveRules env c (some rs) ++ (compileOne env c r).toList := by
        simp only [compileRemoveRules]
        rw [List.filterMap_append]
        congr 1
      by_cases hcE : (compileRemoveRules env c (some (rs ++ [r]))).isEmpty = true
      · have hcE0 : (compileRemoveRules env c (some rs)).isEmpty = true := by
          rw [List.isEmpty_iff] at hcE ⊢
          rw [hdec] at hcE
          cases hl : compileRemoveRules env c (some rs) with
          | nil => rfl
          | cons x xs =>
            rw [hl] at hcE
            exact absurd hcE (by simp)
        have hL : (customResult env (some (rs ++ [r])) (c :: t)).1 = c :: t := by
          unfold customResult
          rw [if_pos hgL]
          dsimp only
          rw [if_pos hcE]
        have hR : (customResult env (some rs) (c :: t)).1 = c :: t := by
          unfold customResult
          rw [if_pos hgR]
          dsimp only
          rw [if_pos hcE0]
        rw [hL, hR]
      · by_cases hcE0 : (compileRemoveRules env c (some rs)).isEmpty = true
        · have hR : (customResult env (some rs) (c :: t)).1 = c :: t := by
            unfold customResult
            rw [if_pos hgR]
            dsimp only
            rw [if_pos hcE0]
          rw [hR]
          obtain ⟨s, hs, hsub⟩ :=
            customResult_cons_shape env (some (rs ++ [r])) c t
          rw [hs]
          exact temporalResult_sub env otf names c t s hsub
        · have hL : (customResult env (some (rs ++ [r])) (c :: t)).1
              = c :: t.filter (fun row =>
                  !((compileRemoveRules env c (some (rs ++ [r]))).any
                    (fun p => p.test row))) := by
            unfold customResult
            rw [if_pos hgL]
            dsimp only
            rw [if_neg hcE]
            dsimp only
            rw [customSplit_eq]
          have hR : (customResult env (some rs) (c :: t)).1
              = c :: t.filter (fun row =>
                  !((compileRemoveRules env c (some rs)).any
                    (fun p => p.test row))) := by
            unfold customResult
            rw [if_pos hgR]
            dsimp only
            rw [if_neg hcE0]
            dsimp only
            rw [customSplit_eq]
          rw [hL, hR]
          have hpt : ∀ row : List String,
              (!((compileRemoveRules env c (some (rs ++ [r]))).any
                (fun p => p.test row))) = true →
              (!((compileRemoveRules env c (some rs)).any
                (fun p => p.test row))) = true := by
            intro row hna
            cases hao : (compileRemoveRules env c (some rs)).any
                (fun p => p.test row) with
            | false => rfl
            | true =>
              exfalso
              rw [List.any_eq_true] at hao
              obtain ⟨p, hp, htest⟩ := hao
              have hp2 : p ∈ compileRemoveRules env c (some (rs ++ [r])) := by
                rw [hdec]
                exact List.mem_append_left _ hp
              have hany2 : (compileRemoveRules env c (some (rs ++ [r]))).any
                  (fun p => p.test row) = true :=
                List.any_eq_true.mpr ⟨p, hp2, htest⟩
              rw [hany2] at hna
              exact Bool.noConfusion hna
          exact temporalResult_sub env otf names c _ _
            (List.monotone_filter_right t (fun row hrow => hpt row hrow))
  · have hL : (customResult env (some (rs ++ [r])) (c :: t)).1 = c :: t := by
      unfold customResult
      rw [if_neg (show ¬(1 < (c :: t).length ∧
          (some (rs ++ [r]) : Option (List CsvRemoveRule)).getD [] ≠ []) from
        fun hcon => h1 hcon.1)]
    have hR : (customResult env (some rs) (c :: t)).1 = c :: t := by
      unfold customResult
      rw [if_neg (show ¬(1 < (c :: t).length ∧
          (some rs : Option (List CsvRemoveRule)).getD [] ≠ []) from
        fun hcon => h1 hcon.1)]
    rw [hL, hR]

theorem cleanCount_blank_le (env : JsEnv) (raw : List (List String))
    (otf : Option EventTimeFilter) (cfg : CsvConfig) :
    (cleanCsvRows env raw
        { eventTimeFilter := otf,
          csvConfig := some { cfg with removeEmptyRows := some true } }).cleanedRowCount
    ≤ (cleanCsvRows env raw
        { eventTimeFilter := otf,
          csvConfig := some { cfg with removeEmptyRows := some false } }).cleanedRowCount := by
  cases hfh : findHeaderIndex raw with
  | none =>
    rw [cleanCsvRows_none_eq env raw _ hfh, cleanCsvRows_none_eq env raw _ hfh]
  | some h =>
    rw [cleanCsvRows_some_eq env raw _ h hfh, cleanCsvRows_some_eq env raw _ h hfh]
    obtain ⟨hlt, hnb, hpre, hdecomp⟩ := findHeaderIndex_decompose raw h hfh
    have hhdrlen : (raw.getD h []).length
        ≤ (structParamsOf { eventTimeFilter := otf, csvConfig := some cfg }
            raw h).tableLen := Nat.le_max_left _ _
    have hhn : rowIsEmpty (structParamsOf
        { eventTimeFilter := otf, csvConfig := some cfg } raw h).headerNorm
        = false :=
      processed_nonblank (raw.getD h []) _ hhdrlen hnb
    exact pipeline_blank_le env cfg.removeRules otf (cfgEventTimeNames (some cfg))
      (structParamsOf { eventTimeFilter := otf, csvConfig := some cfg } raw h)
      raw h hfh rfl hhn (tableLenOf_ge raw h) hpre hnb hhdrlen

theorem cleanCount_dup_le (env : JsEnv) (raw : List (List String))
    (otf : Option EventTimeFilter) (cfg : CsvConfig) :
    (cleanCsvRows env raw
        { eventTimeFilter := otf,
          csvConfig := some { cfg with
          removeDuplicateHeaderRows := some true } }).cleanedRowCount
    ≤ (cleanCsvRows env raw
        { eventTimeFilter := otf,
          csvConfig := some { cfg with
          removeDuplicateHeaderRows := some false } }).cleanedRowCount := by
  cases hfh : findHeaderIndex raw with
  | none =>
    rw [cleanCsvRows_none_eq env raw _ hfh, cleanCsvRows_none_eq env raw _ hfh]
  | some h =>
    rw [cleanCsvRows_some_eq env raw _ h hfh, cleanCsvRows_some_eq env raw _ h hfh]
    obtain ⟨hlt, hnb, hpre, hdecomp⟩ := findHeaderIndex_decompose raw h hfh
    have hhdrlen : (raw.getD h []).length
        ≤ (structParamsOf { eventTimeFilter := otf, csvConfig := some cfg }
            raw h).tableLen := Nat.le_max_left _ _
    have hhn : rowIsEmpty (structParamsOf
        { eventTimeFilter := otf, csvConfig := some cfg } raw h).headerNorm
        = false :=
      processed_nonblank (raw.getD h []) _ hhdrlen hnb
    exact pipeline_dup_le env cfg.removeRules otf (cfgEventTimeNames (some cfg))
      (structParamsOf { eventTimeFilter := otf, csvConfig := some cfg } raw h)
      raw h hfh rfl hhn

theorem cleanCount_fkw_le (env : JsEnv) (raw : List (List String))
    (otf : Option EventTimeFilter) (cfg : CsvConfig) :
    (cleanCsvRows env raw
        { eventTimeFilter := otf,
          csvConfig := some { cfg with
          removeFooterKeywordRows := some true } }).cleanedRowCount
    ≤ (cleanCsvRows env raw
        { eventTimeFilter := otf,
          csvConfig := some { cfg with
          removeFooterKeywordRows := some false } }).cleanedRowCount := by
  cases hfh : findHeaderIndex raw with
  | none =>
    rw [cleanCsvRows_none_eq env raw _ hfh, cleanCsvRows_none_eq env raw _ hfh]
  | some h =>
    rw [cleanCsvRows_some_eq env raw _ h hfh, cleanCsvRows_some_eq env raw _ h hfh]
    obtain ⟨hlt, hnb, hpre, hdecomp⟩ := findHeaderIndex_decompose raw h hfh
    have hhdrlen : (raw.getD h []).length
        ≤ (structParamsOf { eventTimeFilter := otf, csvConfig := some cfg }
            raw h).tableLen := Nat.le_max_left _ _
    have hhn : rowIsEmpty (structParamsOf
        { eventTimeFilter := otf, csvConfig := some cfg } raw h).headerNorm
        = false :=
      processed_nonblank (raw.getD h []) _ hhdrlen hnb
    exact pipeline_fkw_le env cfg.removeRules otf (cfgEventTimeNames (some cfg))
      (structParamsOf { eventTimeFilter := otf, csvConfig := some cfg } raw h)
      raw h hfh rfl hhn

theorem cleanCount_rules_le (env : JsEnv) (raw : List (List String))
    (otf : Option EventTimeFilter) (cfg : CsvConfig)
    (rs : List CsvRemoveRule) (r : CsvRemoveRule) :
    (cleanCsvRows env raw
        { eventTimeFilter := otf,
          csvConfig := some { cfg with
          removeRules := some (rs ++ [r]) } }).cleanedRowCount
    ≤ (cleanCsvRows env raw
        { eventTimeFilter := otf,
          csvConfig := some { cfg with removeRules := some rs } }).cleanedRowCount := by
  cases hfh : findHeaderIndex raw with
  | none =>
    rw [cleanCsvRows_none_eq env raw _ hfh, cleanCsvRows_none_eq env raw _ hfh]
  | some h =>
    rw [cleanCsvRows_some_eq env raw _ h hfh, cleanCsvRows_some_eq env raw _ h hfh]
    show (temporalResult env otf (cfgEventTimeNames (some cfg))
        (customResult env (some (rs ++ [r]))
          (structuralSplit (structParamsOf
            { eventTimeFilter := otf, csvConfig := some cfg } raw h)
            0 raw).1).1).1.length
      ≤ (temporalResult env otf (cfgEventTimeNames (some cfg))
        (customResult env (some rs)
          (structuralSplit (structParamsOf
            { eventTimeFilter := otf, csvConfig := some cfg } raw h)
            0 raw).1).1).1.length
    cases hbase : (structuralSplit (structParamsOf
        { eventTimeFilter := otf, csvConfig := some cfg } raw h) 0 raw).1 with
    | nil =>
      rw [customResult_nil, customResult_nil, temporalResult_nil]
    | cons c t =>
      exact custom_append_count_le env rs r otf (cfgEventTimeNames (some cfg)) c t

theorem cleanCount_window_le (env : JsEnv) (raw : List (List String))
    (ocfg : Option CsvConfig) (tf tf2 : EventTimeFilter)
    (hmode : tf.mode = EventTimeFilterMode.includeMatch)
    (hmode2 : tf2.mode = EventTimeFilterMode.includeMatch)
    (hen : tf.enabled = tf2.enabled)
    (hs : startTighter (startMsOf env tf) (startMsOf env tf2))
    (he : endTighter (endMsOf env tf) (endMsOf env tf2)) :
    (cleanCsvRows env raw
        { eventTimeFilter := some tf2,
          csvConfig := ocfg }).cleanedRowCount
    ≤ (cleanCsvRows env raw
        { eventTimeFilter := some tf,
          csvConfig := ocfg }).cleanedRowCount := by
  cases hfh : findHeaderIndex raw with
  | none =>
    rw [cleanCsvRows_none_eq env raw _ hfh, cleanCsvRows_none_eq env raw _ hfh]
  | some h =>
    rw [cleanCsvRows_some_eq env raw _ h hfh, cleanCsvRows_some_eq env raw _ h hfh]
    exact temporalResult_window_mono env (cfgEventTimeNames ocfg) tf tf2
      hmode hmode2 hen hs he
      (customResult env (ocfg.bind (fun c2 => c2.removeRules))
        (structuralSplit (structParamsOf
          { eventTimeFilter := some tf, csvConfig := ocfg } raw h) 0 raw).1).1

/-- C9 counterexample: the claim asserts that narrowing the temporal window
(here adding an end bound, with the enabled flag and the mode unchanged)
never increases cleanedRowCount, with no restriction on the filter mode.  In
excludeMatch mode the rows inside the window are the ones removed, so a
narrower window removes fewer rows: on a table whose data row parses to an
instant far past 2020, the run without bounds removes it (cleanedRowCount 1)
while the run with end bound 2020-01-01 keeps it (cleanedRowCount 2). -/
theorem cleanCsvRows_monotone_claim_counterexample :
    startTighter (startMsOf envLateDate tfExcludeNoBounds)
      (startMsOf envLateDate tfExcludeEnd) ∧
    endTighter (endMsOf envLateDate tfExcludeNoBounds)
      (endMsOf envLateDate tfExcludeEnd) ∧
    tfExcludeNoBounds.enabled = tfExcludeEnd.enabled ∧
    tfExcludeNoBounds.mode = tfExcludeEnd.mode ∧
    (cleanCsvRows envLateDate [["事件时间"], ["2024"]]
      { eventTimeFilter := some tfExcludeNoBounds,
        csvConfig := none }).cleanedRowCount = 1 ∧
    (cleanCsvRows envLateDate [["事件时间"], ["2024"]]
      { eventTimeFilter := some tfExcludeEnd,
        csvConfig := none }).cleanedRowCount = 2 := by
  refine ⟨fun s hs => Option.noConfusion hs, fun e he => Option.noConfusion he,
    rfl, rfl, by decide, by decide⟩

/-- C9 (amended): for every input table, (1) enabling blank-row removal,
(2) enabling duplicate-header removal, (3) enabling footer-keyword removal
(each with all other configuration equal), and (4) appending any additional
remove rule to the rule list, never increases cleanedRowCount; and
(5) narrowing the temporal window — raising the computed start bound,
lowering the computed end bound, or adding either bound, with the enabled
flag unchanged — never increases cleanedRowCount provided the filter mode is
includeMatch.  The counterexample shows the mode restriction in (5) is
forced: in excludeMatch mode narrowing can increase cleanedRowCount. -/
theorem cleanCsvRows_monotone_spec :
    (∀ (env : JsEnv) (raw : List (List String)) (otf : Option EventTimeFilter)
        (cfg : CsvConfig),
      (cleanCsvRows env raw
        { eventTimeFilter := otf,
          csvConfig := some { cfg with
            removeEmptyRows := some true } }).cleanedRowCount
      ≤ (cleanCsvRows env raw
        { eventTimeFilter := otf,
          csvConfig := some { cfg with
            removeEmptyRows := some false } }).cleanedRowCount) ∧
    (∀ (env : JsEnv) (raw : List (List String)) (otf : Option EventTimeFilter)
        (cfg : CsvConfig),
      (cleanCsvRows env raw
        { eventTimeFilter := otf,
          csvConfig := some { cfg with
            removeDuplicateHeaderRows := some true } }).cleanedRowCount
      ≤ (cleanCsvRows env raw
        { eventTimeFilter := otf,
          csvConfig := some { cfg with
            removeDuplicateHeaderRows := some false } }).cleanedRowCount) ∧
    (∀ (env : JsEnv) (raw : List (List String)) (otf : Option EventTimeFilter)
        (cfg : CsvConfig),
      (cleanCsvRows env raw
        { eventTimeFilter := otf,
          csvConfig := some { cfg with
            removeFooterKeywordRows := some true } }).cleanedRowCount
      ≤ (cleanCsvRows env raw
        { eventTimeFilter := otf,
          csvConfig := some { cfg with
            removeFooterKeywordRows := some false } }).cleanedRowCount) ∧
    (∀ (env : JsEnv) (raw : List (List String)) (otf : Option EventTimeFilter)
        (cfg : CsvConfig) (rs : List CsvRemoveRule) (r : CsvRemoveRule),
      (cleanCsvRows env raw
        { eventTimeFilter := otf,
          csvConfig := some { cfg with
            removeRules := some (rs ++ [r]) } }).cleanedRowCount
      ≤ (cleanCsvRows env raw
        { eventTimeFilter := otf,
          csvConfig := some { cfg with
            removeRules := some rs } }).cleanedRowCount) ∧
    (∀ (env : JsEnv) (raw : List (List String)) (ocfg : Option CsvConfig)
        (tf tf2 : EventTimeFilter),
      tf.mode = EventTimeFilterMode.includeMatch →
      tf2.mode = EventTimeFilterMode.includeMatch →
      tf.enabled = tf2.enabled →
      startTighter (startMsOf env tf) (startMsOf env tf2) →
      endTighter (endMsOf env tf) (endMsOf env tf2) →
      (cleanCsvRows env raw
        { eventTimeFilter := some tf2,
          csvConfig := ocfg }).cleanedRowCount
      ≤ (cleanCsvRows env raw
        { eventTimeFilter := some tf,
          csvConfig := ocfg }).cleanedRowCount) :=
  ⟨cleanCount_blank_le, cleanCount_dup_le, cleanCount_fkw_le,
    cleanCount_rules_le, cleanCount_window_le⟩

/-- A concrete application of the monotonicity theorem: its temporal part at
the envDay fixtures (adding both bounds to an unbounded include-mode filter,
discharging the mode, enabled and tightness hypotheses), and its blank-row
part at a two-row table. -/
theorem cleanCsvRows_monotone_spec_witness :
    (cleanCsvRows envDay [["事件时间"], ["2024-01-02 10:00"]]
      { eventTimeFilter := some tfDay, csvConfig := none }).cleanedRowCount
    ≤ (cleanCsvRows envDay [["事件时间"], ["2024-01-02 10:00"]]
      { eventTimeFilter := some tfIncludeNoBounds,
        csvConfig := none }).cleanedRowCount ∧
    (cleanCsvRows trivEnv [["hdr"], ["X"]]
      { eventTimeFilter := none,
        csvConfig := some { cfgNoBlankRemoval with
          removeEmptyRows := some true } }).cleanedRowCount
    ≤ (cleanCsvRows trivEnv [["hdr"], ["X"]]
      { eventTimeFilter := none,
        csvConfig := some { cfgNoBlankRemoval with
          removeEmptyRows := some false } }).cleanedRowCount :=
  ⟨cleanCsvRows_monotone_spec.2.2.2.2 envDay [["事件时间"], ["2024-01-02 10:00"]]
      none tfIncludeNoBounds tfDay rfl rfl rfl
      (fun _ hs => Option.noConfusion hs) (fun _ he => Option.noConfusion he),
    cleanCsvRows_monotone_spec.1 trivEnv [["hdr"], ["X"]] none cfgNoBlankRemoval⟩
